import Mathlib

/-!
# schemast/field.go: synthesis and editing of ent field declarations

A shallow embedding of `schemast/field.go` (package `schemast` of the ent
contrib repository) and the properties of its field synthesizer
(`Field`, `fromSimpleType`, `fromEnumType`), its declaration-list editor
(`AppendField`, `RemoveField`), its name extractor (`extractFieldName`) and its
type scaffolder (`AddType`).

Conventions of the embedding:

* The Go strings that the program is given (names, literal text, identifiers)
  are modelled by `String`: exactly the Go strings that are valid UTF-8. A rune
  is a `Char`.
* The Go strings that the program computes from literal text (`strconv.Unquote`,
  `extractFieldName`) can be any byte string; they are a `GoString`, the list of
  their bytes, and `goString s` is the byte string of `s`.
* A Go function returning `(T, error)` returns `Except Failure T`; a function
  that mutates the tree behind `*Context` takes a `Context` and returns the
  resulting `Context` next to its result.
* A run-time panic (nil dereference, index out of range) is a `Failure` of its
  own, never confused with a returned error.
* Nil pointers inside the syntax tree are not modelled, with one exception:
  every node field holds a node, as in the trees `go/parser` produces, but the
  body of a method declaration is optional, since `go/parser` leaves `Body` nil
  for a declaration without a body.
-/

set_option autoImplicit false

namespace schemast

/-! ## Failures -/

deriving instance DecidableEq for Except

/-- What a call can end with instead of a result. `errorf`, `errSyntax`,
`methodNotFound`, `unsupportedFeature` and `parseError` are returned Go `error`
values;
`panic` is a run-time panic. -/
inductive Failure where
  /-- An error made by `fmt.Errorf` in `field.go`, with its message. -/
  | errorf (msg : String)
  /-- The value `strconv.ErrSyntax` ("invalid syntax"). -/
  | errSyntax
  /-- The error of `lookupMethod` when the type has no such method. -/
  | methodNotFound (typeName methodName : String)
  /-- The aggregated error built by `combineUnsupported`. -/
  | unsupportedFeature (features : List String)
  /-- A run-time panic. -/
  | panic (what : String)
  /-- The error of `parser.ParseFile` on a source text that does not parse. -/
  | parseError (msg : String)
  deriving DecidableEq

/-! ## Byte strings and `unicode/utf8` -/

/-- A Go string as a sequence of bytes (each below 256). -/
abbrev GoString := List Nat

namespace utf8

/-- The function `utf8.EncodeRune` (`utf8.AppendRune`): the UTF-8 encoding of
the rune `v`; a surrogate or a value above `MaxRune` is encoded as `RuneError`. -/
def EncodeRune (v : Nat) : List Nat :=
  if v ≤ 0x7F then [v]
  else if v ≤ 0x7FF then [0xC0 + v / 64, 0x80 + v % 64]
  else if v > 0x10FFFF ∨ (0xD800 ≤ v ∧ v ≤ 0xDFFF) then [0xEF, 0xBF, 0xBD]
  else if v ≤ 0xFFFF then [0xE0 + v / 4096, 0x80 + v / 64 % 64, 0x80 + v % 64]
  else [0xF0 + v / 262144, 0x80 + v / 4096 % 64, 0x80 + v / 64 % 64, 0x80 + v % 64]

end utf8

/-- The bytes of a string: the UTF-8 encoding of its runes. -/
def goString (s : String) : GoString :=
  s.data.flatMap fun c => utf8.EncodeRune c.toNat

/-! ## Model of `strconv.Quote` and `strconv.Unquote` (Go standard library)

`strLit` writes a name with `strconv.Quote`, `extractFieldName` reads it back
with `strconv.Unquote`, and `%q` in an error message is `strconv.Quote`. The
functions below follow `strconv/quote.go` rune by rune. The Unicode tables
behind `strconv.IsPrint` for runes above U+00FF are not reproduced: they are
the parameter `tbl`. -/

namespace strconv

/-- The table `lowerhex = "0123456789abcdef"`, indexed by a digit. -/
def lowerhex (d : Nat) : Char :=
  if d < 10 then Char.ofNat (48 + d) else Char.ofNat (87 + d)

/-- The function `unhex`: the value of a hexadecimal digit, if it is one. -/
def unhex (c : Char) : Option Nat :=
  if 48 ≤ c.toNat ∧ c.toNat ≤ 57 then some (c.toNat - 48)
  else if 97 ≤ c.toNat ∧ c.toNat ≤ 102 then some (c.toNat - 87)
  else if 65 ≤ c.toNat ∧ c.toNat ≤ 70 then some (c.toNat - 55)
  else none

/-- The function `IsPrint`: decided in the code for Latin-1, looked up in the
tables `tbl` above it. -/
def IsPrint (tbl : Char → Bool) (r : Char) : Bool :=
  if r.toNat ≤ 0xFF then
    if 0x20 ≤ r.toNat ∧ r.toNat ≤ 0x7E then true
    else if 0xA1 ≤ r.toNat ∧ r.toNat ≤ 0xFF then r.toNat != 0xAD
    else false
  else tbl r

/-- The digits `lowerhex[v>>(4*(n-1))&0xF], ..., lowerhex[v&0xF]`. -/
def hexDigits : Nat → Nat → List Char
  | 0, _ => []
  | n + 1, v => lowerhex (v / 16 ^ n % 16) :: hexDigits n v

/-- The function `appendEscapedRune` (with `ASCIIonly` and `graphicOnly`
false, as `Quote` calls it): the text written for one rune. -/
def appendEscapedRune (tbl : Char → Bool) (r : Char) (quote : Char) : List Char :=
  if r = quote ∨ r = '\\' then ['\\', r]
  else if IsPrint tbl r then [r]
  else if r.toNat = 7 then ['\\', 'a']
  else if r.toNat = 8 then ['\\', 'b']
  else if r.toNat = 12 then ['\\', 'f']
  else if r.toNat = 10 then ['\\', 'n']
  else if r.toNat = 13 then ['\\', 'r']
  else if r.toNat = 9 then ['\\', 't']
  else if r.toNat = 11 then ['\\', 'v']
  else if r.toNat < 0x20 ∨ r.toNat = 0x7F then '\\' :: 'x' :: hexDigits 2 r.toNat
  else if r.toNat < 0x10000 then '\\' :: 'u' :: hexDigits 4 r.toNat
  else '\\' :: 'U' :: hexDigits 8 r.toNat

/-- The body of `Quote` between the quotes. -/
def quoteRunes (tbl : Char → Bool) (quote : Char) : List Char → List Char
  | [] => []
  | r :: rs => appendEscapedRune tbl r quote ++ quoteRunes tbl quote rs

/-- The function `strconv.Quote`: a double-quoted Go string literal for `s`. -/
def Quote (tbl : Char → Bool) (s : String) : String :=
  ⟨'"' :: (quoteRunes tbl '"' s.data ++ ['"'])⟩

/-- The named escapes: the letter written after the backslash and the rune. -/
def namedEscapes : List (Char × Nat) :=
  [('a', 7), ('b', 8), ('f', 12), ('n', 10), ('r', 13), ('t', 9), ('v', 11)]

/-- Reads `n` hexadecimal digits into `v` (`v = v<<4 | x`). -/
def readHex : Nat → Nat → List Char → Option (Nat × List Char)
  | 0, v, s => some (v, s)
  | _ + 1, _, [] => none
  | n + 1, v, c :: s =>
    match unhex c with
    | some x => readHex n (v * 16 + x) s
    | none => none

/-- Reads `n` octal digits into `v` (`v = v<<3 | x`). -/
def readOct : Nat → Nat → List Char → Option (Nat × List Char)
  | 0, v, s => some (v, s)
  | _ + 1, _, [] => none
  | n + 1, v, c :: s =>
    if 48 ≤ c.toNat ∧ c.toNat ≤ 55 then readOct n (v * 8 + (c.toNat - 48)) s else none

/-- The predicate `utf8.ValidRune`. -/
def ValidRune (v : Nat) : Bool :=
  v < 0xD800 || (0xDFFF < v && v < 0x110000)

/-- The hard case of `strconv.UnquoteChar`: the escape sequence that starts
with a backslash and the character `e`, followed by `s2`. The result is
`value`, `multibyte` and `tail`. -/
def unquoteEscape (e : Char) (s2 : List Char) (quote : Char) :
    Except Failure (Nat × Bool × List Char) :=
  if e = 'a' then .ok (7, false, s2)
  else if e = 'b' then .ok (8, false, s2)
  else if e = 'f' then .ok (12, false, s2)
  else if e = 'n' then .ok (10, false, s2)
  else if e = 'r' then .ok (13, false, s2)
  else if e = 't' then .ok (9, false, s2)
  else if e = 'v' then .ok (11, false, s2)
  else if e = 'x' then
    match readHex 2 0 s2 with
    | some (v, tail) => .ok (v, false, tail)
    | none => .error .errSyntax
  else if e = 'u' ∨ e = 'U' then
    match readHex (if e = 'u' then 4 else 8) 0 s2 with
    | some (v, tail) =>
      if ValidRune v then .ok (v, true, tail) else .error .errSyntax
    | none => .error .errSyntax
  else if 48 ≤ e.toNat ∧ e.toNat ≤ 55 then
    match readOct 2 (e.toNat - 48) s2 with
    | some (v, tail) => if v > 255 then .error .errSyntax else .ok (v, false, tail)
    | none => .error .errSyntax
  else if e = '\\' then .ok (92, false, s2)
  else if e = '\'' ∨ e = '"' then
    if e ≠ quote then .error .errSyntax else .ok (e.toNat, false, s2)
  else .error .errSyntax

/-- The function `strconv.UnquoteChar`: decodes the first character or escape
sequence of `s` and returns `value`, `multibyte` and the rest of `s`. -/
def UnquoteChar (s : List Char) (quote : Char) : Except Failure (Nat × Bool × List Char) :=
  match s with
  | [] => .error .errSyntax
  | c :: s1 =>
    if c = quote ∧ (quote = '\'' ∨ quote = '"') then .error .errSyntax
    else if c.toNat ≥ 0x80 then .ok (c.toNat, true, s1)
    else if c ≠ '\\' then .ok (c.toNat, false, s1)
    else
      match s1 with
      | [] => .error .errSyntax
      | e :: s2 => unquoteEscape e s2 quote

/-- What the loop of `Unquote` appends for one decoded character: the single
byte `byte(c)` when `c < utf8.RuneSelf || !multibyte`, the UTF-8 encoding of the
rune otherwise. -/
def appendValue (value : Nat) (multibyte : Bool) : List Nat :=
  if value < 0x80 ∨ multibyte = false then [value % 256] else utf8.EncodeRune value

/-- The loop of `Unquote` over the text between the quotes. Every round
consumes at least one character, so `fuel = s.length` rounds are enough
(`unquoteLoop_fuel`); the branch for spent fuel is never reached from
`Unquote`. -/
def unquoteLoop (quote : Char) : Nat → List Char → Except Failure GoString
  | _, [] => .ok []
  | 0, _ :: _ => .error .errSyntax
  | fuel + 1, c :: s =>
    match UnquoteChar (c :: s) quote with
    | .error e => .error e
    | .ok (value, multibyte, tail) =>
      if quote = '\'' ∧ tail ≠ [] then .error .errSyntax
      else
        match unquoteLoop quote fuel tail with
        | .error e => .error e
        | .ok rest => .ok (appendValue value multibyte ++ rest)

/-- The function `strconv.Unquote` on the characters of the literal. -/
def unquoteChars (s : List Char) : Except Failure GoString :=
  match s with
  | [] => .error .errSyntax
  | quote :: rest =>
    if rest.getLast? ≠ some quote then .error .errSyntax
    else
      let body := rest.dropLast
      if quote = Char.ofNat 96 then
        if body.contains (Char.ofNat 96) then .error .errSyntax
        else .ok (goString ⟨body.filter (fun c => c.toNat != 13)⟩)
      else if quote ≠ '"' ∧ quote ≠ '\'' then .error .errSyntax
      else if body.contains (Char.ofNat 10) then .error .errSyntax
      else unquoteLoop quote body.length body

/-- The function `strconv.Unquote`: the string a quoted literal denotes. -/
def Unquote (s : String) : Except Failure GoString :=
  unquoteChars s.data

end strconv

/-! ## The syntax tree (`go/ast`, `go/token`) -/

/-- The literal kinds of `go/token` that a `BasicLit` carries. -/
inductive Token where
  | INT
  | FLOAT
  | IMAG
  | CHAR
  | STRING
  deriving DecidableEq

/-- The expression nodes of `go/ast` that the package builds or inspects.
An `*ast.Ident` in a field of type `*ast.Ident` (`SelectorExpr.Sel`) is its
name. `ParenExpr`, `StarExpr` and `IndexExpr` stand for the node kinds that none
of the type switches of `field.go` names. -/
inductive Expr where
  /-- An identifier `*ast.Ident` with its `Name`. -/
  | Ident (name : String)
  /-- A literal `*ast.BasicLit` with `Kind` and the literal text `Value`. -/
  | BasicLit (kind : Token) (value : String)
  /-- A call `*ast.CallExpr` with `Fun` and `Args`. -/
  | CallExpr (fn : Expr) (args : List Expr)
  /-- A selector `*ast.SelectorExpr` with `X` and `Sel`. -/
  | SelectorExpr (x : Expr) (sel : String)
  /-- A composite literal `*ast.CompositeLit` with `Type` and `Elts`. -/
  | CompositeLit (type : Expr) (elts : List Expr)
  /-- A slice type `*ast.ArrayType` with no `Len` and element type `Elt`. -/
  | ArrayType (elt : Expr)
  /-- A map type `*ast.MapType`. -/
  | MapType (key value : Expr)
  /-- An entry `*ast.KeyValueExpr` of a composite literal. -/
  | KeyValueExpr (key value : Expr)
  /-- A parenthesised expression `*ast.ParenExpr`. -/
  | ParenExpr (x : Expr)
  /-- A pointer or dereference `*ast.StarExpr`. -/
  | StarExpr (x : Expr)
  /-- An index expression `*ast.IndexExpr`. -/
  | IndexExpr (x index : Expr)

mutual
/-- Structural equality test on expressions. -/
def Expr.beq : Expr → Expr → Bool
  | .Ident a, .Ident b => a == b
  | .BasicLit k v, .BasicLit k2 v2 => k == k2 && v == v2
  | .CallExpr f as, .CallExpr g bs => Expr.beq f g && Expr.beqList as bs
  | .SelectorExpr x s, .SelectorExpr y t => Expr.beq x y && s == t
  | .CompositeLit t as, .CompositeLit u bs => Expr.beq t u && Expr.beqList as bs
  | .ArrayType a, .ArrayType b => Expr.beq a b
  | .MapType k v, .MapType k2 v2 => Expr.beq k k2 && Expr.beq v v2
  | .KeyValueExpr k v, .KeyValueExpr k2 v2 => Expr.beq k k2 && Expr.beq v v2
  | .ParenExpr a, .ParenExpr b => Expr.beq a b
  | .StarExpr a, .StarExpr b => Expr.beq a b
  | .IndexExpr a i, .IndexExpr b j => Expr.beq a b && Expr.beq i j
  | _, _ => false
/-- Structural equality test on expression lists. -/
def Expr.beqList : List Expr → List Expr → Bool
  | [], [] => true
  | a :: as, b :: bs => Expr.beq a b && Expr.beqList as bs
  | _, _ => false
end

/-- The statements of a method body: a `*ast.ReturnStmt` with its `Results`,
or another statement (`*ast.ExprStmt` stands for every other kind). -/
inductive Stmt where
  | ReturnStmt (results : List Expr)
  | ExprStmt (x : Expr)

/-- The dynamic type of an expression as `%T` prints it. -/
def Expr.goType : Expr → String
  | .Ident _ => "*ast.Ident"
  | .BasicLit _ _ => "*ast.BasicLit"
  | .CallExpr _ _ => "*ast.CallExpr"
  | .SelectorExpr _ _ => "*ast.SelectorExpr"
  | .CompositeLit _ _ => "*ast.CompositeLit"
  | .ArrayType _ => "*ast.ArrayType"
  | .MapType _ _ => "*ast.MapType"
  | .KeyValueExpr _ _ => "*ast.KeyValueExpr"
  | .ParenExpr _ => "*ast.ParenExpr"
  | .StarExpr _ => "*ast.StarExpr"
  | .IndexExpr _ _ => "*ast.IndexExpr"

/-! ## The descriptor (`entgo.io/ent/schema/field`) -/

namespace field

/-- The type `field.Type`, a `uint8` enumeration, with its constants in the
order of their declaration (`endTypes` closes the list). -/
inductive FieldType where
  | TypeInvalid
  | TypeBool
  | TypeTime
  | TypeJSON
  | TypeUUID
  | TypeBytes
  | TypeEnum
  | TypeString
  | TypeOther
  | TypeInt8
  | TypeInt16
  | TypeInt32
  | TypeInt
  | TypeInt64
  | TypeUint8
  | TypeUint16
  | TypeUint32
  | TypeUint
  | TypeUint64
  | TypeFloat32
  | TypeFloat64
  deriving DecidableEq

/-- The numeric value of a constant (`iota`). -/
def FieldType.toNat : FieldType → Nat
  | .TypeInvalid => 0
  | .TypeBool => 1
  | .TypeTime => 2
  | .TypeJSON => 3
  | .TypeUUID => 4
  | .TypeBytes => 5
  | .TypeEnum => 6
  | .TypeString => 7
  | .TypeOther => 8
  | .TypeInt8 => 9
  | .TypeInt16 => 10
  | .TypeInt32 => 11
  | .TypeInt => 12
  | .TypeInt64 => 13
  | .TypeUint8 => 14
  | .TypeUint16 => 15
  | .TypeUint32 => 16
  | .TypeUint => 17
  | .TypeUint64 => 18
  | .TypeFloat32 => 19
  | .TypeFloat64 => 20

/-- The constant `endTypes`. -/
def endTypes : Nat := 21

/-- The method `Type.Numeric`: `t >= TypeInt8 && t < endTypes`. -/
def FieldType.Numeric (t : FieldType) : Bool :=
  decide (FieldType.TypeInt8.toNat ≤ t.toNat) && decide (t.toNat < endTypes)

/-- The method `Type.ConstName`: the name of the constant, `invalid` for
`TypeInvalid`. -/
def FieldType.ConstName : FieldType → String
  | .TypeInvalid => "invalid"
  | .TypeBool => "TypeBool"
  | .TypeTime => "TypeTime"
  | .TypeJSON => "TypeJSON"
  | .TypeUUID => "TypeUUID"
  | .TypeBytes => "TypeBytes"
  | .TypeEnum => "TypeEnum"
  | .TypeString => "TypeString"
  | .TypeOther => "TypeOther"
  | .TypeInt8 => "TypeInt8"
  | .TypeInt16 => "TypeInt16"
  | .TypeInt32 => "TypeInt32"
  | .TypeInt => "TypeInt"
  | .TypeInt64 => "TypeInt64"
  | .TypeUint8 => "TypeUint8"
  | .TypeUint16 => "TypeUint16"
  | .TypeUint32 => "TypeUint32"
  | .TypeUint => "TypeUint"
  | .TypeUint64 => "TypeUint64"
  | .TypeFloat32 => "TypeFloat32"
  | .TypeFloat64 => "TypeFloat64"

/-- The struct `field.TypeInfo`; only its `Type` is read by the package. -/
structure TypeInfo where
  type : FieldType
  deriving DecidableEq

/-- The method `TypeInfo.ConstName`. -/
def TypeInfo.ConstName (t : TypeInfo) : String := t.type.ConstName

/-- A value of type `interface{}` or `schema.Annotation` whose content the
package never inspects (a default value, a validator, an annotation). -/
structure Any where
  tag : Nat
  deriving DecidableEq

/-- One element of `Descriptor.Enums`: `struct{ N, V string }`. -/
structure EnumPair where
  N : String
  V : String
  deriving DecidableEq

/-- The struct `field.Descriptor`. `Default` and `UpdateDefault` are `nil`
(`none`) or hold a value; the map `SchemaType` is the list of its entries. -/
structure Descriptor where
  Tag : String := ""
  Size : Nat := 0
  Name : String
  Info : TypeInfo
  Unique : Bool := false
  Nillable : Bool := false
  Optional : Bool := false
  Immutable : Bool := false
  Default : Option Any := none
  UpdateDefault : Option Any := none
  Validators : List Any := []
  StorageKey : String := ""
  Enums : List EnumPair := []
  Sensitive : Bool := false
  SchemaType : List (String × String) := []
  Annotations : List Any := []
  Comment : String := ""
  deriving DecidableEq

end field

open field (Descriptor FieldType)

/-! ## Helpers of the package that `field.go` calls -/

/-- Modelled from the spec: the Builder Chain `builderCall` (its declaration is
not in `field.go`), which owns the current outermost call `curr`. -/
structure builderCall where
  curr : Expr

/-- Modelled from the spec: `builderCall.method` (not in `field.go`) wraps the
current tree as the receiver of a new call `current.name(args...)` and makes
that call the current tree. -/
def builderCall.method (f : builderCall) (name : String) (args : List Expr) : builderCall :=
  ⟨.CallExpr (.SelectorExpr f.curr name) args⟩

/-- Modelled from the spec: `strLit` (not in `field.go`) is the string literal
whose text is the quoted string, so that unquoting it gives the string back. -/
def strLit (tbl : Char → Bool) (lit : String) : Expr :=
  .BasicLit .STRING (strconv.Quote tbl lit)

/-- Modelled from the spec: `strMapLit` (not in `field.go`) is the mapping
literal `map[string]string` with one key-value entry per entry of the map, each
side a string literal. -/
def strMapLit (tbl : Char → Bool) (m : List (String × String)) : Expr :=
  .CompositeLit (.MapType (.Ident "string") (.Ident "string"))
    (m.map fun kv => .KeyValueExpr (strLit tbl kv.1) (strLit tbl kv.2))

/-- Modelled from the spec: `combineUnsupported` (not in `field.go`) aggregates
the names of the offending fields into a single error, each new name after the
ones already there. Its first argument is `nil` or an error it returned
before; another error is kept as it is. -/
def combineUnsupported (err : Option Failure) (feature : String) : Failure :=
  match err with
  | none => .unsupportedFeature [feature]
  | some (.unsupportedFeature features) => .unsupportedFeature (features ++ [feature])
  | some e => e

/-- The function `strings.TrimPrefix`. -/
def TrimPrefix (s pre : String) : String :=
  if pre.data.isPrefixOf s.data then ⟨s.data.drop pre.data.length⟩ else s

/-! ## `field.go` -/

/-- The function `fieldConstructor`. -/
def fieldConstructor (dsc : Descriptor) : String :=
  TrimPrefix dsc.Info.ConstName "Type"

/-- The function `newFieldCall`: the call `field.<Ctor>("name")`. -/
def newFieldCall (tbl : Char → Bool) (desc : Descriptor) : builderCall :=
  ⟨.CallExpr (.SelectorExpr (.Ident "field") (fieldConstructor desc)) [strLit tbl desc.Name]⟩

/-- The function `fromSimpleType`. -/
def fromSimpleType (tbl : Char → Bool) (desc : Descriptor) : Except Failure Expr :=
  let builder := newFieldCall tbl desc
  let builder := if desc.Nillable then builder.method "Nillable" [] else builder
  let builder := if desc.Optional then builder.method "Optional" [] else builder
  let builder := if desc.Unique then builder.method "Unique" [] else builder
  let builder := if desc.Sensitive then builder.method "Sensitive" [] else builder
  let builder := if desc.Immutable then builder.method "Immutable" [] else builder
  let builder :=
    if desc.Comment ≠ "" then builder.method "Comment" [strLit tbl desc.Comment] else builder
  let builder :=
    if desc.Tag ≠ "" then builder.method "StructTag" [strLit tbl desc.Tag] else builder
  let builder :=
    if desc.StorageKey ≠ "" then builder.method "StorageKey" [strLit tbl desc.StorageKey]
    else builder
  let builder :=
    if desc.SchemaType.length > 0 then builder.method "SchemaType" [strMapLit tbl desc.SchemaType]
    else builder
  -- Unsupported features
  let unsupported : Option Failure := none
  let unsupported :=
    if desc.Annotations.length ≠ 0 then
      some (combineUnsupported unsupported "Descriptor.Annotations")
    else unsupported
  let unsupported :=
    if desc.Validators.length ≠ 0 then
      some (combineUnsupported unsupported "Descriptor.Validators")
    else unsupported
  let unsupported :=
    if desc.Default ≠ none then some (combineUnsupported unsupported "Descriptor.Default")
    else unsupported
  let unsupported :=
    if desc.UpdateDefault ≠ none then
      some (combineUnsupported unsupported "Descriptor.UpdateDefault")
    else unsupported
  match unsupported with
  | some err => .error err
  | none => .ok builder.curr

/-- The first loop of `fromEnumType`: `NamedValues` as soon as a pair has a
name different from its value, `Values` otherwise. -/
def enumModifier : List field.EnumPair → String
  | [] => "Values"
  | pair :: rest => if pair.N ≠ pair.V then "NamedValues" else enumModifier rest

/-- The second loop of `fromEnumType`: the arguments of the modifier. -/
def enumArgs (tbl : Char → Bool) (modifier : String) : List field.EnumPair → List Expr
  | [] => []
  | pair :: rest =>
    if modifier = "NamedValues" then
      strLit tbl pair.N :: strLit tbl pair.V :: enumArgs tbl modifier rest
    else strLit tbl pair.N :: enumArgs tbl modifier rest

/-- The function `fromEnumType`. -/
def fromEnumType (tbl : Char → Bool) (desc : Descriptor) : Except Failure Expr :=
  match fromSimpleType tbl desc with
  | .error err => .error err
  | .ok call =>
    let modifier := enumModifier desc.Enums
    let args := enumArgs tbl modifier desc.Enums
    let builder : builderCall := ⟨call⟩
    let builder := builder.method modifier args
    .ok builder.curr

/-- The function `Field`: converts a descriptor back into the call expression
of the ent field package that constructs it. -/
def Field (tbl : Char → Bool) (desc : Descriptor) : Except Failure Expr :=
  let t := desc.Info.type
  if t.Numeric || t == .TypeString || t == .TypeBool then fromSimpleType tbl desc
  else if t == .TypeEnum then fromEnumType tbl desc
  else .error (.errorf ("schemast: unsupported type " ++ t.ConstName))

/-- The function `newFieldSliceWith`: the literal `[]ent.Field` holding `f`. -/
def newFieldSliceWith (f : Expr) : Expr :=
  .CompositeLit (.ArrayType (.SelectorExpr (.Ident "ent") "Field")) [f]

/-- The end of `extractFieldName`, once the receiver has been accepted: the
name is read from the first argument. When that argument is not a
`*ast.BasicLit`, the assertion leaves `name` nil and `ok` false, so the
condition `!ok && name.Kind == token.STRING` dereferences nil; when it is one,
the condition is false whatever its kind and the literal is unquoted. -/
def nameArg (args : List Expr) : Except Failure GoString :=
  match args with
  | [] => .error (.errorf "schemast: expected field constructor to have at least name arg")
  | .BasicLit _ value :: _ => strconv.Unquote value
  | _ :: _ => .error (.panic "invalid memory address or nil pointer dereference")

/-- The function `extractFieldName` on the call `fd` with `fd.Fun = fn` and
`fd.Args = args`. The name it returns is the string that `strconv.Unquote`
computes, given by its bytes. -/
def extractFieldName (fn : Expr) (args : List Expr) : Except Failure GoString :=
  match fn with
  | .SelectorExpr x _ =>
    match x with
    | .CallExpr innerFn innerArgs => extractFieldName innerFn innerArgs
    | .Ident name =>
      if name ≠ "field" then
        .error (.errorf "schemast: expected field AST to be of form field.<Type>(\"name\")")
      else nameArg args
    | _ => nameArg args
  | _ => .error (.errorf ("schemast: unexpected type " ++ fn.goType))

/-! ## The context and the declaration-list editor -/

/-- A method declaration `*ast.FuncDecl`: the name of its receiver type, its
own name and its `Body`, which is nil (`none`) for a declaration without a
body and otherwise holds the statements `Body.List`. -/
structure FuncDecl where
  recv : String
  name : String
  body : Option (List Stmt)

/-- Modelled from the spec: the struct `Context` (declared outside `field.go`,
which uses its fields `SchemaPackage` and `newTypes`), reduced to the method
declarations that can be resolved in it: `SchemaPackage` stands for the method
declarations of the files `c.SchemaPackage.Syntax`, in order, and `newTypes`
maps a type name to the method declarations of the file registered under it. -/
structure Context where
  SchemaPackage : List FuncDecl
  newTypes : List (String × List FuncDecl) := []

/-- The test by which a declaration is the method `methodName` of `typeName`. -/
def FuncDecl.isMethod (typeName methodName : String) (fd : FuncDecl) : Bool :=
  fd.recv == typeName && fd.name == methodName

/-- Every method declaration of the context: the ones of the package, then the
ones of the files in `newTypes`. -/
def Context.allDecls (c : Context) : List FuncDecl :=
  c.SchemaPackage ++ c.newTypes.flatMap (fun entry => entry.2)

/-- Modelled from the spec: `lookupMethod` (not in `field.go`) resolves the
declaration of the method `methodName` of the type `typeName`, or fails. -/
def Context.lookupMethod (c : Context) (typeName methodName : String) :
    Except Failure FuncDecl :=
  match c.allDecls.find? (FuncDecl.isMethod typeName methodName) with
  | some fd => .ok fd
  | none => .error (.methodNotFound typeName methodName)

/-- The method `fieldsReturnStmt`: the return statement of the `Fields` method
of `typeName`, given by its `Results`. On a declaration without a body,
`fd.Body` is nil and `fd.Body.List` is a nil dereference. -/
def Context.fieldsReturnStmt (c : Context) (typeName : String) :
    Except Failure (List Expr) :=
  match c.lookupMethod typeName "Fields" with
  | .error err => .error err
  | .ok fd =>
    match fd.body with
    | none => .error (.panic "invalid memory address or nil pointer dereference")
    | some list =>
      if list.length ≠ 1 then
        .error (.errorf "schmeast: Fields() func body must have a single element")
      else
        match list with
        | .ReturnStmt results :: _ => .ok results
        | _ => .error (.errorf "schmeast: Fields() func body must contain a return statement")

/-- Replaces the body of the first declaration that satisfies `p`. -/
def setBody (p : FuncDecl → Bool) (body : List Stmt) : List FuncDecl → List FuncDecl
  | [] => []
  | fd :: rest =>
    if p fd then { fd with body := some body } :: rest else fd :: setBody p body rest

/-- Replaces the body of the first declaration that satisfies `p` in the files
of `newTypes`. -/
def setBodyNew (p : FuncDecl → Bool) (body : List Stmt) :
    List (String × List FuncDecl) → List (String × List FuncDecl)
  | [] => []
  | entry :: rest =>
    if entry.2.any p then (entry.1, setBody p body entry.2) :: rest
    else entry :: setBodyNew p body rest

/-- A write through the pointer that `fieldsReturnStmt` returned: the return
statement of the resolved `Fields` method gets the results `results`; every
other declaration stays as it is. -/
def Context.setResults (c : Context) (typeName : String) (results : List Expr) : Context :=
  if c.SchemaPackage.any (FuncDecl.isMethod typeName "Fields") then
    { c with SchemaPackage :=
        setBody (FuncDecl.isMethod typeName "Fields") [.ReturnStmt results] c.SchemaPackage }
  else
    { c with newTypes :=
        setBodyNew (FuncDecl.isMethod typeName "Fields") [.ReturnStmt results] c.newTypes }

/-- The method `AppendField`: adds a field to the returned values of the
`Fields` method of type `typeName`. Returns the error (`ok` for `nil`) and the
context after the call. -/
def Context.AppendField (tbl : Char → Bool) (c : Context) (typeName : String)
    (desc : Descriptor) : Except Failure Unit × Context :=
  match c.fieldsReturnStmt typeName with
  | .error err => (.error err, c)
  | .ok results =>
    match Field tbl desc with
    | .error err => (.error err, c)
    | .ok newField =>
      match results with
      | [] => (.error (.panic "index out of range [0] with length 0"), c)
      | returned :: more =>
        match returned with
        | .Ident name =>
          if name = "nil" then (.ok (), c.setResults typeName [newFieldSliceWith newField])
          else (.error (.errorf ("schemast: unexpected ident. expected nil got " ++ name)), c)
        | .CompositeLit type elts =>
          (.ok (), c.setResults typeName (.CompositeLit type (elts ++ [newField]) :: more))
        | r => (.error (.errorf ("schemast: unexpected AST component type " ++ r.goType)), c)

/-- One round of the loop of `RemoveField` up to the comparison: the element
must be a `*ast.CallExpr`, and its name is extracted. -/
def itemName (item : Expr) : Except Failure GoString :=
  match item with
  | .CallExpr fn args => extractFieldName fn args
  | _ =>
    .error (.errorf "schemast: expected return statement elements to be call expressions")

/-- The loop of `RemoveField` over `returned.Elts`, at index `i` with the
elements `items` still to visit: the elements left after the removal
`append(Elts[:i], Elts[i+1:]...)`, or `none` when no element has the name. The
test `name == fieldName` compares the extracted bytes with the bytes of
`fieldName`. -/
def removeLoop (fieldName : String) (elts : List Expr) :
    Nat → List Expr → Except Failure (Option (List Expr))
  | _, [] => .ok none
  | i, item :: items =>
    match itemName item with
    | .error err => .error err
    | .ok name =>
      if name = goString fieldName then .ok (some (elts.take i ++ elts.drop (i + 1)))
      else removeLoop fieldName elts (i + 1) items

/-- The method `RemoveField`: removes a field from the returned values of the
`Fields` method of type `typeName`. Returns the error (`ok` for `nil`) and the
context after the call. -/
def Context.RemoveField (tbl : Char → Bool) (c : Context) (typeName : String)
    (fieldName : String) : Except Failure Unit × Context :=
  match c.fieldsReturnStmt typeName with
  | .error err => (.error err, c)
  | .ok results =>
    match results with
    | [] => (.error (.panic "index out of range [0] with length 0"), c)
    | .CompositeLit type elts :: more =>
      match removeLoop fieldName elts 0 elts with
      | .error err => (.error err, c)
      | .ok (some elts2) => (.ok (), c.setResults typeName (.CompositeLit type elts2 :: more))
      | .ok none =>
        (.error (.errorf ("schemast: could not find field " ++ strconv.Quote tbl fieldName
          ++ " in type " ++ strconv.Quote tbl typeName)), c)
    | r :: _ => (.error (.errorf ("schemast: unexpected AST component type " ++ r.goType)), c)

/-! ## The type scaffolder -/

/-- The two functions of other packages that `AddType` calls, as parameters:
`inflect.Underscore`, and `parser.ParseFile(c.SchemaPackage.Fset, fn, body, 0)`
reduced to what the context keeps of a parsed file, its method declarations. -/
structure Collaborators where
  Underscore : String → String
  ParseFile : String → String → Except Failure (List FuncDecl)

/-- The source text that `AddType` formats for `typeName`. -/
def skeletonSource (typeName : String) : String :=
  "package schema\nimport \"entgo.io/ent\"\ntype " ++ typeName
    ++ " struct \x7b\n\tent.Schema\n\x7d\nfunc (" ++ typeName
    ++ ") Fields() []ent.Field \x7b\n\treturn nil\n\x7d\nfunc (" ++ typeName
    ++ ") Edges() []ent.Edge \x7b\n\treturn nil\n\x7d\n"

/-- The method declarations of the file that `go/parser` makes of
`skeletonSource typeName` when `typeName` is an identifier: `Fields` and
`Edges`, both with the body `return nil`. -/
def skeletonDecls (typeName : String) : List FuncDecl :=
  [⟨typeName, "Fields", some [.ReturnStmt [.Ident "nil"]]⟩,
   ⟨typeName, "Edges", some [.ReturnStmt [.Ident "nil"]]⟩]

/-- The map read `m[k]` on `newTypes`. -/
def mapLookup (m : List (String × List FuncDecl)) (k : String) : Option (List FuncDecl) :=
  match m with
  | [] => none
  | entry :: rest => if entry.1 = k then some entry.2 else mapLookup rest k

/-- The map assignment `m[k] = v` on `newTypes`: the value of an existing key is
replaced, a new key is added. -/
def mapAssign (m : List (String × List FuncDecl)) (k : String) (v : List FuncDecl) :
    List (String × List FuncDecl) :=
  match m with
  | [] => [(k, v)]
  | entry :: rest => if entry.1 = k then (k, v) :: rest else entry :: mapAssign rest k v

/-- The method `AddType`: parses the skeleton of `typeName` and stores the file
in `c.newTypes[typeName]`. Returns the error (`ok` for `nil`) and the context
after the call. -/
def Context.AddType (ext : Collaborators) (c : Context) (typeName : String) :
    Except Failure Unit × Context :=
  let body := skeletonSource typeName
  let fn := ext.Underscore typeName ++ ".go"
  match ext.ParseFile fn body with
  | .error err => (.error err, c)
  | .ok f => (.ok (), { c with newTypes := mapAssign c.newTypes typeName f })

/-! ## A fragment of `go/scanner` and `go/parser`

`AddType` hands a source text to `parser.ParseFile`. The functions below read
the source files that have the shape of a scaffolded type: a package clause,
imports, struct types that embed types, and methods without parameters that
have no body or whose body is a list of `return` statements. A text outside
this fragment is not judged (`none`). The tables behind `unicode.IsLetter` and `unicode.IsDigit` are
parameters. -/

/-- The tables `unicode.IsLetter` and `unicode.IsDigit`, asked only for runes
from `utf8.RuneSelf` on. -/
structure Unicode where
  IsLetter : Char → Bool
  IsDigit : Char → Bool

namespace scanner

/-- The tokens of `go/token` that occur in the fragment; `KEYWORD` is any other
keyword and `ILLEGAL` closes a text that leaves the fragment. -/
inductive Tok where
  | IDENT (name : String)
  | STRING (value : String)
  | PACKAGE
  | IMPORT
  | TYPE
  | STRUCT
  | FUNC
  | RETURN
  | KEYWORD (word : String)
  | LPAREN
  | RPAREN
  | LBRACE
  | RBRACE
  | LBRACK
  | RBRACK
  | PERIOD
  | SEMICOLON
  | ILLEGAL
  deriving DecidableEq

/-- The function `isLetter` of `go/scanner`. -/
def isLetter (u : Unicode) (ch : Char) : Bool :=
  (97 ≤ ch.toNat && ch.toNat ≤ 122) || (65 ≤ ch.toNat && ch.toNat ≤ 90) || ch.toNat == 95
    || (ch.toNat ≥ 0x80 && u.IsLetter ch)

/-- The function `isDigit` of `go/scanner`. -/
def isDigit (u : Unicode) (ch : Char) : Bool :=
  (48 ≤ ch.toNat && ch.toNat ≤ 57) || (ch.toNat ≥ 0x80 && u.IsDigit ch)

/-- The keywords of Go apart from the six that have a token of their own here. -/
def otherKeywords : List String :=
  ["break", "case", "chan", "const", "continue", "default", "defer", "else",
   "fallthrough", "for", "go", "goto", "if", "interface", "map", "range", "select",
   "switch", "var"]

/-- The function `token.Lookup`: the token of a scanned word. -/
def Lookup (word : String) : Tok :=
  if word = "package" then .PACKAGE
  else if word = "import" then .IMPORT
  else if word = "type" then .TYPE
  else if word = "struct" then .STRUCT
  else if word = "func" then .FUNC
  else if word = "return" then .RETURN
  else if word ∈ otherKeywords then .KEYWORD word
  else .IDENT word

/-- The flag `insertSemi` after a token: a newline that follows becomes a
semicolon. -/
def insertSemi : Tok → Bool
  | .IDENT _ => true
  | .STRING _ => true
  | .RETURN => true
  | .KEYWORD word => word = "break" || word = "continue" || word = "fallthrough"
  | .RPAREN => true
  | .RBRACK => true
  | .RBRACE => true
  | _ => false

/-- Where the scanner stands between two characters: between tokens (with the
flag `insertSemi`), inside a word, inside a string literal, or outside the
fragment. -/
inductive Mode where
  | start (semi : Bool)
  | word (cur : List Char)
  | str (cur : List Char)
  | bad
  deriving DecidableEq

/-- One character read between tokens: the tokens it completes and the next
mode. -/
def stepStart (u : Unicode) (semi : Bool) (ch : Char) : List Tok × Mode :=
  if ch.toNat = 10 then (if semi then [.SEMICOLON] else [], .start false)
  else if ch.toNat = 32 ∨ ch.toNat = 9 ∨ ch.toNat = 13 then ([], .start semi)
  else if isLetter u ch then ([], .word [ch])
  else if ch = '"' then ([], .str [])
  else if ch = '(' then ([.LPAREN], .start false)
  else if ch = ')' then ([.RPAREN], .start true)
  else if ch.toNat = 123 then ([.LBRACE], .start false)
  else if ch.toNat = 125 then ([.RBRACE], .start true)
  else if ch = '[' then ([.LBRACK], .start false)
  else if ch = ']' then ([.RBRACK], .start true)
  else if ch = '.' then ([.PERIOD], .start false)
  else if ch = ';' then ([.SEMICOLON], .start false)
  else ([], .bad)

/-- One character read in any mode. -/
def step (u : Unicode) (m : Mode) (ch : Char) : List Tok × Mode :=
  match m with
  | .start semi => stepStart u semi ch
  | .word cur =>
    if isLetter u ch || isDigit u ch then ([], .word (cur ++ [ch]))
    else
      let tok := Lookup ⟨cur⟩
      (tok :: (stepStart u (insertSemi tok) ch).1, (stepStart u (insertSemi tok) ch).2)
  | .str cur =>
    if ch = '"' then ([.STRING ⟨cur⟩], .start true)
    else if ch = '\\' ∨ ch.toNat = 10 then ([], .bad)
    else ([], .str (cur ++ [ch]))
  | .bad => ([], .bad)

/-- The tokens completed while reading `src` from mode `m`, and the mode at
the end. -/
def run (u : Unicode) : Mode → List Char → List Tok × Mode
  | m, [] => ([], m)
  | m, ch :: rest => ((step u m ch).1 ++ (run u (step u m ch).2 rest).1,
      (run u (step u m ch).2 rest).2)

/-- The tokens at the end of the text: the pending word, and the semicolon
that the end of the file stands for. -/
def finish : Mode → List Tok
  | .start semi => if semi then [.SEMICOLON] else []
  | .word cur => Lookup ⟨cur⟩ :: (if insertSemi (Lookup ⟨cur⟩) then [.SEMICOLON] else [])
  | .str _ => [.ILLEGAL]
  | .bad => [.ILLEGAL]

/-- The token sequence of a source text. -/
def Scan (u : Unicode) (src : String) : List Tok :=
  (run u (.start false) src.data).1 ++ finish (run u (.start false) src.data).2

end scanner

namespace parser

open scanner (Tok)

/-- The fields of a struct type up to and with its closing brace: embedded
types `T` and `pkg.T`. Returns the tokens that follow. -/
def parseStructFields : List Tok → Option (List Tok)
  | .RBRACE :: rest => some rest
  | .IDENT _ :: .RBRACE :: rest => some rest
  | .IDENT _ :: .PERIOD :: .IDENT _ :: .RBRACE :: rest => some rest
  | .IDENT _ :: .SEMICOLON :: rest => parseStructFields rest
  | .IDENT _ :: .PERIOD :: .IDENT _ :: .SEMICOLON :: rest => parseStructFields rest
  | _ => none

/-- The statements of a block up to and with its closing brace: `return` and
`return x`. Returns them with the tokens that follow. -/
def parseStmtList : List Tok → Option (List Stmt × List Tok)
  | .RBRACE :: rest => some ([], rest)
  | .RETURN :: .RBRACE :: rest => some ([.ReturnStmt []], rest)
  | .RETURN :: .IDENT x :: .RBRACE :: rest => some ([.ReturnStmt [.Ident x]], rest)
  | .RETURN :: .SEMICOLON :: rest =>
    match parseStmtList rest with
    | some (stmts, rest2) => some (.ReturnStmt [] :: stmts, rest2)
    | none => none
  | .RETURN :: .IDENT x :: .SEMICOLON :: rest =>
    match parseStmtList rest with
    | some (stmts, rest2) => some (.ReturnStmt [.Ident x] :: stmts, rest2)
    | none => none
  | _ => none

/-- The declarations after the imports: struct types, which leave no method,
and methods `func (T) Name() []pkg.R`, with a block or without a body (`Body`
is then nil). Every declaration consumes tokens, so a fuel of the number of
tokens is enough. -/
def parseDecls : Nat → List Tok → Option (List FuncDecl)
  | _, [] => some []
  | 0, _ :: _ => none
  | fuel + 1, .TYPE :: .IDENT _ :: .STRUCT :: .LBRACE :: rest =>
    match parseStructFields rest with
    | some (.SEMICOLON :: rest2) => parseDecls fuel rest2
    | _ => none
  | fuel + 1, .FUNC :: .LPAREN :: .IDENT recv :: .RPAREN :: .IDENT name :: .LPAREN :: .RPAREN
      :: .LBRACK :: .RBRACK :: .IDENT _ :: .PERIOD :: .IDENT _ :: .LBRACE :: rest =>
    match parseStmtList rest with
    | some (stmts, .SEMICOLON :: rest2) =>
      match parseDecls fuel rest2 with
      | some decls => some (⟨recv, name, some stmts⟩ :: decls)
      | none => none
    | _ => none
  | fuel + 1, .FUNC :: .LPAREN :: .IDENT recv :: .RPAREN :: .IDENT name :: .LPAREN :: .RPAREN
      :: .LBRACK :: .RBRACK :: .IDENT _ :: .PERIOD :: .IDENT _ :: .SEMICOLON :: rest =>
    match parseDecls fuel rest with
    | some decls => some (⟨recv, name, none⟩ :: decls)
    | none => none
  | _ + 1, _ :: _ => none

/-- The import paths of the fragment: not empty, made of ASCII letters, digits
and the characters `.`, `/`, `_`, `-`. The function `isValidImport` of the
parser accepts every one of them. -/
def importPath (value : String) : Bool :=
  value.data ≠ [] && value.data.all fun c =>
    (97 ≤ c.toNat && c.toNat ≤ 122) || (65 ≤ c.toNat && c.toNat ≤ 90)
      || (48 ≤ c.toNat && c.toNat ≤ 57) || c = '.' || c = '/' || c = '_' || c = '-'

/-- The import declarations `import "path"`, then the other declarations. -/
def parseImports : List Tok → Option (List FuncDecl)
  | .IMPORT :: .STRING value :: .SEMICOLON :: rest =>
    if importPath value then parseImports rest else none
  | rest => parseDecls rest.length rest

/-- The source file: the package clause (the blank name is left outside the
fragment), then the declarations. -/
def parseFile : List Tok → Option (List FuncDecl)
  | .PACKAGE :: .IDENT name :: .SEMICOLON :: rest =>
    if name = "_" then none else parseImports rest
  | _ => none

/-- The function `parser.ParseFile` on the fragment: the method declarations of
the file, or `none` for a text outside the fragment. -/
def ParseFile (u : Unicode) (src : String) : Option (List FuncDecl) :=
  parseFile (scanner.Scan u src)

end parser

/-- The type names that are identifiers of Go: a letter followed by letters
and digits, and no keyword. -/
def isIdentifier (u : Unicode) (name : String) : Bool :=
  match name.data with
  | [] => false
  | ch :: rest =>
    scanner.isLetter u ch && rest.all (fun c => scanner.isLetter u c || scanner.isDigit u c)
      && match scanner.Lookup name with
         | .IDENT _ => true
         | _ => false

/-- The printable-rune table used in examples: nothing above Latin-1 counts as
printable (the behaviour of `strconv.QuoteToASCII` there). -/
def asciiTable : Char → Bool := fun _ => false

/-! ## The properties, in the words of the specification -/

/-- The tree `base` extended by the chained calls `calls`, innermost first:
each call `(name, args)` wraps what stands before it as `recv.name(args...)`. -/
def chain (base : Expr) (calls : List (String × List Expr)) : Expr :=
  calls.foldl (fun recv call => .CallExpr (.SelectorExpr recv call.1) call.2) base

/-- The modifier calls of a descriptor in the words of the specification: one
call per set modifier, in the fixed order nillable, optional, unique,
sensitive, immutable (no argument), comment, struct tag, storage key (one
string literal), schema type (one map literal). -/
def setModifiers (tbl : Char → Bool) (d : Descriptor) : List (String × List Expr) :=
  (if d.Nillable = true then [("Nillable", [])] else []) ++
  (if d.Optional = true then [("Optional", [])] else []) ++
  (if d.Unique = true then [("Unique", [])] else []) ++
  (if d.Sensitive = true then [("Sensitive", [])] else []) ++
  (if d.Immutable = true then [("Immutable", [])] else []) ++
  (if d.Comment ≠ "" then [("Comment", [strLit tbl d.Comment])] else []) ++
  (if d.Tag ≠ "" then [("StructTag", [strLit tbl d.Tag])] else []) ++
  (if d.StorageKey ≠ "" then [("StorageKey", [strLit tbl d.StorageKey])] else []) ++
  (if d.SchemaType ≠ [] then [("SchemaType", [strMapLit tbl d.SchemaType])] else [])

/-- The rejected fields of a descriptor that are set, in the fixed order
annotations, validators, default, update default. -/
def rejectedFields (d : Descriptor) : List String :=
  (if d.Annotations ≠ [] then ["Descriptor.Annotations"] else []) ++
  (if d.Validators ≠ [] then ["Descriptor.Validators"] else []) ++
  (if d.Default ≠ none then ["Descriptor.Default"] else []) ++
  (if d.UpdateDefault ≠ none then ["Descriptor.UpdateDefault"] else [])

/-- The type categories of the plain-scalar path: numeric, string, boolean
(the first case of the switch in `Field`). -/
def isSimpleType (t : FieldType) : Bool :=
  t.Numeric || t == .TypeString || t == .TypeBool

/-! ## Example inputs -/

/-- The list type `[]ent.Field` of the literal that `Fields` returns. -/
def entFieldSlice : Expr := .ArrayType (.SelectorExpr (.Ident "ent") "Field")

/-- The call `field.<ctor>("name")` as it stands in a parsed file. -/
def fieldCall (ctor name : String) : Expr :=
  .CallExpr (.SelectorExpr (.Ident "field") ctor) [.BasicLit .STRING ("\"" ++ name ++ "\"")]

/-- A context with the one type `User` whose `Fields` method is `return results`. -/
def userContext (results : List Expr) : Context :=
  { SchemaPackage := [⟨"User", "Fields", some [.ReturnStmt results]⟩] }

/-- The method declaration of `userContext results`. -/
def userFields (results : List Expr) : FuncDecl :=
  ⟨"User", "Fields", some [.ReturnStmt results]⟩

/-- The descriptor of `field.String("x")`. -/
def stringX : Descriptor := { Name := "x", Info := ⟨.TypeString⟩ }

/-- The descriptor of `field.Int("age").Optional().Comment("years")`. -/
def intAge : Descriptor :=
  { Name := "age", Info := ⟨.TypeInt⟩, Optional := true, Comment := "years" }

/-- The descriptor of `field.Enum("state").Values("on", "off")`. -/
def enumState : Descriptor :=
  { Name := "state", Info := ⟨.TypeEnum⟩, Enums := [⟨"on", "on"⟩, ⟨"off", "off"⟩] }

/-- A JSON descriptor with a validator: a rejected field on a type that has no
synthesis path. -/
def jsonValidated : Descriptor :=
  { Name := "payload", Info := ⟨.TypeJSON⟩, Validators := [⟨0⟩] }

/-- A string descriptor with a validator and an update default. -/
def stringRejected : Descriptor :=
  { Name := "x", Info := ⟨.TypeString⟩, Validators := [⟨0⟩], UpdateDefault := some ⟨1⟩ }

/-- A context with the one type `User` whose `Fields` method has the body
`body`. -/
def userWithBody (body : List Stmt) : Context :=
  { SchemaPackage := [⟨"User", "Fields", some body⟩] }

/-- A context with the one type `User` whose `Fields` method is declared
without a body: `func (User) Fields() []ent.Field`. -/
def userWithoutBody : Context :=
  { SchemaPackage := [⟨"User", "Fields", none⟩] }

/-- The Unicode tables used in examples: no letter and no digit outside
ASCII. -/
def asciiUnicode : Unicode := { IsLetter := fun _ => false, IsDigit := fun _ => false }

/-- The collaborators whose parser is the fragment parser: a text outside the
fragment is refused. -/
def fragmentCollaborators : Collaborators :=
  { Underscore := fun s => s
    ParseFile := fun _ src =>
      match parser.ParseFile asciiUnicode src with
      | some decls => .ok decls
      | none => .error (.parseError "outside the fragment") }

/-- The collaborators as they answer for the type name `Foo`: the file name is
`foo`, the skeleton of `Foo` parses into its two methods, and any other text is
refused. -/
def fooCollaborators : Collaborators :=
  { Underscore := fun _ => "foo"
    ParseFile := fun _ src =>
      if src = skeletonSource "Foo" then .ok (skeletonDecls "Foo")
      else .error (.parseError "expected declaration") }

/-- A context in which `Foo` is registered as a new type whose `Fields` method
already returns `[]ent.Field` holding `field.String("x")`. -/
def fooRegistered : Context :=
  { SchemaPackage := []
    newTypes := [("Foo",
      [⟨"Foo", "Fields", some [.ReturnStmt [.CompositeLit entFieldSlice [fieldCall "String" "x"]]]⟩,
       ⟨"Foo", "Edges", some [.ReturnStmt [.Ident "nil"]]⟩])] }

/-! ## Decidable equality of syntax trees -/

mutual
theorem Expr.beq_iff : ∀ (a b : Expr), Expr.beq a b = true ↔ a = b
  | .Ident a, b => by cases b <;> simp [Expr.beq]
  | .BasicLit k v, b => by cases b <;> simp [Expr.beq]
  | .CallExpr f as, b => by
    cases b with
    | CallExpr g bs => simp [Expr.beq, Expr.beq_iff f g, Expr.beqList_iff as bs]
    | _ => simp [Expr.beq]
  | .SelectorExpr x s, b => by
    cases b with
    | SelectorExpr y t => simp [Expr.beq, Expr.beq_iff x y]
    | _ => simp [Expr.beq]
  | .CompositeLit t as, b => by
    cases b with
    | CompositeLit u bs => simp [Expr.beq, Expr.beq_iff t u, Expr.beqList_iff as bs]
    | _ => simp [Expr.beq]
  | .ArrayType a, b => by
    cases b with
    | ArrayType c => simp [Expr.beq, Expr.beq_iff a c]
    | _ => simp [Expr.beq]
  | .MapType k v, b => by
    cases b with
    | MapType k2 v2 => simp [Expr.beq, Expr.beq_iff k k2, Expr.beq_iff v v2]
    | _ => simp [Expr.beq]
  | .KeyValueExpr k v, b => by
    cases b with
    | KeyValueExpr k2 v2 => simp [Expr.beq, Expr.beq_iff k k2, Expr.beq_iff v v2]
    | _ => simp [Expr.beq]
  | .ParenExpr a, b => by
    cases b with
    | ParenExpr c => simp [Expr.beq, Expr.beq_iff a c]
    | _ => simp [Expr.beq]
  | .StarExpr a, b => by
    cases b with
    | StarExpr c => simp [Expr.beq, Expr.beq_iff a c]
    | _ => simp [Expr.beq]
  | .IndexExpr a i, b => by
    cases b with
    | IndexExpr c j => simp [Expr.beq, Expr.beq_iff a c, Expr.beq_iff i j]
    | _ => simp [Expr.beq]
theorem Expr.beqList_iff : ∀ (as bs : List Expr), Expr.beqList as bs = true ↔ as = bs
  | [], bs => by cases bs <;> simp [Expr.beqList]
  | _ :: _, [] => by simp [Expr.beqList]
  | a :: as, b :: bs => by simp [Expr.beqList, Expr.beq_iff a b, Expr.beqList_iff as bs]
end

instance : DecidableEq Expr := fun a b => decidable_of_iff _ (Expr.beq_iff a b)

deriving instance DecidableEq for Stmt

deriving instance DecidableEq for FuncDecl

deriving instance DecidableEq for Context

/-! ## Byte strings -/

theorem char_toNat_valid (a : Char) :
    a.toNat < 0xD800 ∨ (0xDFFF < a.toNat ∧ a.toNat < 0x110000) := a.valid

theorem EncodeRune_append_inj (a b : Char) (x y : List Nat)
    (h : utf8.EncodeRune a.toNat ++ x = utf8.EncodeRune b.toNat ++ y) : a = b ∧ x = y := by
  have va := char_toNat_valid a
  have vb := char_toNat_valid b
  have key : a.toNat = b.toNat ∧ x = y := by
    unfold utf8.EncodeRune at h
    split_ifs at h <;>
      simp only [List.cons_append, List.nil_append, List.cons.injEq] at h <;>
      first
        | (exfalso; omega)
        | (constructor
           · omega
           · tauto)
  exact ⟨by rw [← Char.ofNat_toNat a, ← Char.ofNat_toNat b, key.1], key.2⟩

/-- The byte string of a string determines the string. -/
theorem goString_injective (s t : String) (h : goString s = goString t) : s = t := by
  have key : ∀ (a b : List Char),
      (a.flatMap fun c => utf8.EncodeRune c.toNat) = (b.flatMap fun c => utf8.EncodeRune c.toNat)
        → a = b := by
    intro a
    induction a with
    | nil =>
      intro b hb
      cases b with
      | nil => rfl
      | cons c cs =>
        exfalso
        simp only [List.flatMap_nil, List.flatMap_cons] at hb
        have : utf8.EncodeRune c.toNat ≠ [] := by
          unfold utf8.EncodeRune
          split_ifs <;> simp
        cases he : utf8.EncodeRune c.toNat with
        | nil => exact this he
        | cons _ _ => rw [he] at hb; simp at hb
    | cons c cs ih =>
      intro b hb
      cases b with
      | nil =>
        exfalso
        simp only [List.flatMap_nil, List.flatMap_cons] at hb
        have : utf8.EncodeRune c.toNat ≠ [] := by
          unfold utf8.EncodeRune
          split_ifs <;> simp
        cases he : utf8.EncodeRune c.toNat with
        | nil => exact this he
        | cons _ _ => rw [he] at hb; simp at hb
      | cons d ds =>
        simp only [List.flatMap_cons] at hb
        obtain ⟨h1, h2⟩ := EncodeRune_append_inj c d _ _ hb
        rw [h1, ih ds h2]
  cases s with
  | mk a =>
    cases t with
    | mk b =>
      have := key a b h
      rw [this]

/-! ## `strconv`: unquoting what `Quote` wrote -/

namespace strconv

theorem unhex_lowerhex (d : Nat) (h : d < 16) : unhex (lowerhex d) = some d := by
  interval_cases d <;> decide

theorem readHex_hexDigits (n : Nat) : ∀ (acc v : Nat) (rest : List Char),
    readHex n acc (hexDigits n v ++ rest) = some (acc * 16 ^ n + v % 16 ^ n, rest) := by
  induction n with
  | zero => intro acc v rest; simp [readHex, hexDigits, Nat.mod_one]
  | succ n ih =>
    intro acc v rest
    have hd : v / 16 ^ n % 16 < 16 := Nat.mod_lt _ (by norm_num)
    have hm : v % 16 ^ (n + 1) = v % 16 ^ n + 16 ^ n * (v / 16 ^ n % 16) := Nat.mod_pow_succ
    have hr : readHex (n + 1) acc (hexDigits (n + 1) v ++ rest)
        = readHex n (acc * 16 + v / 16 ^ n % 16) (hexDigits n v ++ rest) := by
      simp only [hexDigits, List.cons_append, readHex, unhex_lowerhex _ hd]
      rfl
    rw [hr, ih, hm]
    congr 2
    ring

theorem appendValue_eq (v : Nat) (mb : Bool) (h : mb = true ∨ v < 0x80) :
    appendValue v mb = utf8.EncodeRune v := by
  unfold appendValue utf8.EncodeRune
  by_cases hv : v < 0x80
  · have h1 : v ≤ 0x7F := by omega
    have h2 : v % 256 = v := Nat.mod_eq_of_lt (by omega)
    rw [if_pos (Or.inl hv), if_pos h1, h2]
  · rcases h with h | h
    · subst h
      rw [if_neg (by simp [hv])]
    · exact absurd h hv

theorem UnquoteChar_plain (c quote : Char) (s : List Char) (h1 : c ≠ quote) (h2 : c ≠ '\\') :
    ∃ mb, UnquoteChar (c :: s) quote = .ok (c.toNat, mb, s) ∧ (mb = true ∨ c.toNat < 0x80) := by
  simp only [UnquoteChar]
  rw [if_neg (fun h => h1 h.1)]
  by_cases h3 : c.toNat ≥ 0x80
  · rw [if_pos h3]
    exact ⟨true, rfl, Or.inl rfl⟩
  · rw [if_neg h3, if_pos h2]
    exact ⟨false, rfl, Or.inr (by omega)⟩

theorem UnquoteChar_backslash (e quote : Char) (s : List Char) :
    UnquoteChar ('\\' :: e :: s) quote = unquoteEscape e s quote := by
  simp only [UnquoteChar]
  have h0 : ¬ ('\\' = quote ∧ (quote = '\'' ∨ quote = '"')) := by
    rintro ⟨h, h3 | h3⟩ <;> subst h3 <;> exact absurd h (by decide)
  have h1 : ¬ ('\\' : Char).toNat ≥ 0x80 := by decide
  have h2 : ¬ (('\\' : Char) ≠ '\\') := fun h => h rfl
  rw [if_neg h0, if_neg h1, if_neg h2]

theorem unquoteEscape_hex (n : Nat) (e : Char) (r : Char) (rest : List Char)
    (he : (e = 'u' ∧ n = 4) ∨ (e = 'U' ∧ n = 8)) (hr : r.toNat < 16 ^ n) :
    unquoteEscape e (hexDigits n r.toNat ++ rest) '"' = .ok (r.toNat, true, rest) := by
  have hv : ValidRune r.toNat = true := by
    have := r.valid
    simp only [ValidRune, Bool.or_eq_true, Bool.and_eq_true, decide_eq_true_eq]
    exact this
  rcases he with ⟨h, hn⟩ | ⟨h, hn⟩ <;> subst h <;> subst hn <;> norm_num at hr <;>
    simp [unquoteEscape, readHex_hexDigits, hv, Nat.mod_eq_of_lt hr]

theorem unquoteEscape_x (r : Char) (rest : List Char) (hr : r.toNat < 0x80) :
    unquoteEscape 'x' (hexDigits 2 r.toNat ++ rest) '"' = .ok (r.toNat, false, rest) := by
  have h2 : r.toNat < 256 := by omega
  simp [unquoteEscape, readHex_hexDigits, Nat.mod_eq_of_lt h2]

theorem appendEscapedRune_cases (tbl : Char → Bool) (r q : Char) :
    ((r = q ∨ r = '\\') ∧ appendEscapedRune tbl r q = ['\\', r]) ∨
    ((r ≠ q ∧ r ≠ '\\' ∧ IsPrint tbl r = true) ∧ appendEscapedRune tbl r q = [r]) ∨
    (∃ e n, (e, n) ∈ namedEscapes ∧ r.toNat = n ∧ appendEscapedRune tbl r q = ['\\', e]) ∨
    (r.toNat < 0x80 ∧ appendEscapedRune tbl r q = '\\' :: 'x' :: hexDigits 2 r.toNat) ∨
    (∃ e n, ((e = 'u' ∧ n = 4) ∨ (e = 'U' ∧ n = 8)) ∧ r.toNat < 16 ^ n ∧
      appendEscapedRune tbl r q = '\\' :: e :: hexDigits n r.toNat) := by
  unfold appendEscapedRune
  by_cases h1 : r = q ∨ r = '\\'
  · rw [if_pos h1]; exact Or.inl ⟨h1, rfl⟩
  rw [if_neg h1]
  push_neg at h1
  by_cases h2 : IsPrint tbl r = true
  · rw [if_pos h2]; exact Or.inr (Or.inl ⟨⟨h1.1, h1.2, h2⟩, rfl⟩)
  rw [if_neg h2]
  by_cases h7 : r.toNat = 7
  · rw [if_pos h7]; exact Or.inr (Or.inr (Or.inl ⟨'a', 7, by simp [namedEscapes], h7, rfl⟩))
  rw [if_neg h7]
  by_cases h8 : r.toNat = 8
  · rw [if_pos h8]; exact Or.inr (Or.inr (Or.inl ⟨'b', 8, by simp [namedEscapes], h8, rfl⟩))
  rw [if_neg h8]
  by_cases h12 : r.toNat = 12
  · rw [if_pos h12]; exact Or.inr (Or.inr (Or.inl ⟨'f', 12, by simp [namedEscapes], h12, rfl⟩))
  rw [if_neg h12]
  by_cases h10 : r.toNat = 10
  · rw [if_pos h10]; exact Or.inr (Or.inr (Or.inl ⟨'n', 10, by simp [namedEscapes], h10, rfl⟩))
  rw [if_neg h10]
  by_cases h13 : r.toNat = 13
  · rw [if_pos h13]; exact Or.inr (Or.inr (Or.inl ⟨'r', 13, by simp [namedEscapes], h13, rfl⟩))
  rw [if_neg h13]
  by_cases h9 : r.toNat = 9
  · rw [if_pos h9]; exact Or.inr (Or.inr (Or.inl ⟨'t', 9, by simp [namedEscapes], h9, rfl⟩))
  rw [if_neg h9]
  by_cases h11 : r.toNat = 11
  · rw [if_pos h11]; exact Or.inr (Or.inr (Or.inl ⟨'v', 11, by simp [namedEscapes], h11, rfl⟩))
  rw [if_neg h11]
  by_cases hx : r.toNat < 0x20 ∨ r.toNat = 0x7F
  · rw [if_pos hx]; exact Or.inr (Or.inr (Or.inr (Or.inl ⟨by omega, rfl⟩)))
  rw [if_neg hx]
  by_cases hu : r.toNat < 0x10000
  · rw [if_pos hu]
    exact Or.inr (Or.inr (Or.inr (Or.inr ⟨'u', 4, Or.inl ⟨rfl, rfl⟩, by norm_num; exact hu, rfl⟩)))
  rw [if_neg hu]
  have hU : r.toNat < 16 ^ 8 := by
    have h3 : r.toNat < 0x110000 := by
      rcases r.valid with h | h
      · exact lt_trans h (by norm_num)
      · exact h.2
    exact lt_trans h3 (by norm_num)
  exact Or.inr (Or.inr (Or.inr (Or.inr ⟨'U', 8, Or.inr ⟨rfl, rfl⟩, hU, rfl⟩)))

theorem unquoteEscape_named (e : Char) (n : Nat) (h : (e, n) ∈ namedEscapes)
    (rest : List Char) (q : Char) :
    unquoteEscape e rest q = .ok (n, false, rest) ∧ n < 0x80 := by
  simp only [namedEscapes, List.mem_cons, List.mem_singleton, Prod.mk.injEq, List.not_mem_nil,
    or_false] at h
  rcases h with h | h | h | h | h | h | h <;> obtain ⟨rfl, rfl⟩ := h <;> simp [unquoteEscape]

/-- Decoding what was written for the rune `r` gives `r` back, flagged as
multibyte unless it is below `utf8.RuneSelf`. -/
theorem appendEscapedRune_unquote (tbl : Char → Bool) (r : Char) (rest : List Char) :
    ∃ mb, UnquoteChar (appendEscapedRune tbl r '"' ++ rest) '"' = .ok (r.toNat, mb, rest) ∧
      (mb = true ∨ r.toNat < 0x80) := by
  rcases appendEscapedRune_cases tbl r '"' with
    ⟨h, he⟩ | ⟨h, he⟩ | ⟨e, n, hm, hn, he⟩ | ⟨h, he⟩ | ⟨e, n, hen, hn, he⟩ <;> rw [he]
  · refine ⟨false, ?_, Or.inr ?_⟩
    · rcases h with h | h <;> subst h <;> simp [UnquoteChar_backslash, unquoteEscape]
    · rcases h with h | h <;> subst h <;> decide
  · exact UnquoteChar_plain r '"' rest h.1 h.2.1
  · obtain ⟨h1, h2⟩ := unquoteEscape_named e n hm rest '"'
    refine ⟨false, ?_, Or.inr (by omega)⟩
    rw [hn]
    simpa [UnquoteChar_backslash] using h1
  · exact ⟨false, by simpa [UnquoteChar_backslash] using unquoteEscape_x r rest h, Or.inr h⟩
  · exact ⟨true, by simpa [UnquoteChar_backslash] using unquoteEscape_hex n e r rest hen hn,
      Or.inl rfl⟩

theorem appendEscapedRune_ne_nil (tbl : Char → Bool) (r q : Char) :
    appendEscapedRune tbl r q ≠ [] := by
  rcases appendEscapedRune_cases tbl r q with
    ⟨_, he⟩ | ⟨_, he⟩ | ⟨e, n, _, _, he⟩ | ⟨_, he⟩ | ⟨e, n, _, _, he⟩ <;> rw [he] <;>
    exact List.cons_ne_nil _ _

theorem mem_hexDigits (n v : Nat) (c : Char) (h : c ∈ hexDigits n v) :
    ∃ d, d < 16 ∧ c = lowerhex d := by
  induction n with
  | zero => simp [hexDigits] at h
  | succ n ih =>
    simp only [hexDigits, List.mem_cons] at h
    rcases h with h | h
    · exact ⟨_, Nat.mod_lt _ (by norm_num), h⟩
    · exact ih h

theorem hexDigits_no_newline (n v : Nat) (c : Char) (h : c ∈ hexDigits n v) : c.toNat ≠ 10 := by
  obtain ⟨d, hd, rfl⟩ := mem_hexDigits n v c h
  interval_cases d <;> decide

theorem IsPrint_ne_newline (tbl : Char → Bool) (r : Char) (h : IsPrint tbl r = true) :
    r.toNat ≠ 10 := by
  intro h10
  simp [IsPrint, h10] at h

theorem appendEscapedRune_no_newline (tbl : Char → Bool) (r c : Char)
    (h : c ∈ appendEscapedRune tbl r '"') : c.toNat ≠ 10 := by
  rcases appendEscapedRune_cases tbl r '"' with
    ⟨h1, he⟩ | ⟨h1, he⟩ | ⟨e, n, hm, hn, he⟩ | ⟨h1, he⟩ | ⟨e, n, hen, hn, he⟩ <;> rw [he] at h <;>
    simp only [List.mem_cons, List.mem_singleton, List.not_mem_nil, or_false] at h
  · rcases h with h | h
    · subst h; decide
    · subst h; rcases h1 with h1 | h1 <;> subst h1 <;> decide
  · subst h; exact IsPrint_ne_newline tbl c h1.2.2
  · rcases h with h | h
    · subst h; decide
    · subst h
      simp only [namedEscapes, List.mem_cons, List.mem_singleton, Prod.mk.injEq,
        List.not_mem_nil, or_false] at hm
      rcases hm with h | h | h | h | h | h | h <;> obtain ⟨rfl, _⟩ := h <;> decide
  · rcases h with h | h | h
    · subst h; decide
    · subst h; decide
    · exact hexDigits_no_newline _ _ c h
  · rcases h with h | h | h
    · subst h; decide
    · subst h; rcases hen with ⟨rfl, _⟩ | ⟨rfl, _⟩ <;> decide
    · exact hexDigits_no_newline _ _ c h

theorem quoteRunes_no_newline (tbl : Char → Bool) (rs : List Char) (c : Char)
    (h : c ∈ quoteRunes tbl '"' rs) : c.toNat ≠ 10 := by
  induction rs with
  | nil => simp [quoteRunes] at h
  | cons r rs ih =>
    simp only [quoteRunes, List.mem_append] at h
    rcases h with h | h
    · exact appendEscapedRune_no_newline tbl r c h
    · exact ih h

theorem unquoteLoop_quoteRunes (tbl : Char → Bool) (rs : List Char) :
    ∀ fuel, (quoteRunes tbl '"' rs).length ≤ fuel →
      unquoteLoop '"' fuel (quoteRunes tbl '"' rs) = .ok (goString ⟨rs⟩) := by
  induction rs with
  | nil => intro fuel _; cases fuel <;> simp [quoteRunes, unquoteLoop, goString]
  | cons r rs ih =>
    intro fuel hf
    have hne := appendEscapedRune_ne_nil tbl r '"'
    obtain ⟨mb, hu, hmb⟩ := appendEscapedRune_unquote tbl r (quoteRunes tbl '"' rs)
    simp only [quoteRunes, List.length_append] at hf ⊢
    cases hesc : appendEscapedRune tbl r '"' with
    | nil => exact absurd hesc hne
    | cons c s =>
      rw [hesc] at hu hf
      simp only [List.length_cons] at hf
      cases fuel with
      | zero => omega
      | succ fuel =>
        simp only [List.cons_append, unquoteLoop, List.append_eq]
        rw [List.cons_append] at hu
        rw [hu]
        have hq : ¬ ('"' = '\'' ∧ quoteRunes tbl '"' rs ≠ []) := fun h => absurd h.1 (by decide)
        simp only [if_neg hq]
        rw [ih fuel (by omega), appendValue_eq _ _ hmb]
        simp [goString]

/-- Unquoting what `Quote` wrote gives the string back. -/
theorem Unquote_Quote (tbl : Char → Bool) (s : String) :
    Unquote (Quote tbl s) = .ok (goString s) := by
  have hnl : Char.ofNat 10 ∉ quoteRunes tbl '"' s.data :=
    fun h => quoteRunes_no_newline tbl s.data _ h (by decide)
  simp only [Unquote, Quote, unquoteChars, List.getLast?_concat, List.dropLast_concat]
  simp [hnl, unquoteLoop_quoteRunes tbl s.data _ (le_refl _)]

theorem readHex_length (n : Nat) : ∀ (v : Nat) (s : List Char) (w : Nat) (tail : List Char),
    readHex n v s = some (w, tail) → tail.length ≤ s.length := by
  induction n with
  | zero =>
    intro v s w tail h
    simp only [readHex, Option.some.injEq, Prod.mk.injEq] at h
    rw [h.2]
  | succ n ih =>
    intro v s w tail h
    cases s with
    | nil => simp [readHex] at h
    | cons c s =>
      simp only [readHex] at h
      cases hc : unhex c with
      | none => rw [hc] at h; simp at h
      | some x =>
        rw [hc] at h
        have := ih _ _ _ _ h
        simp only [List.length_cons]
        omega

theorem readOct_length (n : Nat) : ∀ (v : Nat) (s : List Char) (w : Nat) (tail : List Char),
    readOct n v s = some (w, tail) → tail.length ≤ s.length := by
  induction n with
  | zero =>
    intro v s w tail h
    simp only [readOct, Option.some.injEq, Prod.mk.injEq] at h
    rw [h.2]
  | succ n ih =>
    intro v s w tail h
    cases s with
    | nil => simp [readOct] at h
    | cons c s =>
      simp only [readOct] at h
      split_ifs at h
      have := ih _ _ _ _ h
      simp only [List.length_cons]
      omega

theorem unquoteEscape_length (e : Char) (s : List Char) (q : Char) (r : Nat) (mb : Bool)
    (tail : List Char)
    (h : unquoteEscape e s q = .ok (r, mb, tail)) : tail.length ≤ s.length := by
  have fin : ∀ {c : Nat} {b : Bool}, (Except.ok (c, b, s) : Except Failure (Nat × Bool × List Char))
      = .ok (r, mb, tail) → tail.length ≤ s.length := by
    intro c b hc
    simp only [Except.ok.injEq, Prod.mk.injEq] at hc
    rw [hc.2.2]
  unfold unquoteEscape at h
  by_cases ha : e = 'a'
  · rw [if_pos ha] at h; exact fin h
  rw [if_neg ha] at h
  by_cases hb : e = 'b'
  · rw [if_pos hb] at h; exact fin h
  rw [if_neg hb] at h
  by_cases hf : e = 'f'
  · rw [if_pos hf] at h; exact fin h
  rw [if_neg hf] at h
  by_cases hn : e = 'n'
  · rw [if_pos hn] at h; exact fin h
  rw [if_neg hn] at h
  by_cases hr : e = 'r'
  · rw [if_pos hr] at h; exact fin h
  rw [if_neg hr] at h
  by_cases ht : e = 't'
  · rw [if_pos ht] at h; exact fin h
  rw [if_neg ht] at h
  by_cases hv : e = 'v'
  · rw [if_pos hv] at h; exact fin h
  rw [if_neg hv] at h
  by_cases hx : e = 'x'
  · rw [if_pos hx] at h
    cases hh : readHex 2 0 s with
    | none => rw [hh] at h; simp at h
    | some p =>
      obtain ⟨w, tl⟩ := p
      rw [hh] at h
      simp only [Except.ok.injEq, Prod.mk.injEq] at h
      rw [← h.2.2]
      exact readHex_length 2 0 s w tl hh
  rw [if_neg hx] at h
  by_cases hu : e = 'u' ∨ e = 'U'
  · rw [if_pos hu] at h
    cases hh : readHex (if e = 'u' then 4 else 8) 0 s with
    | none => rw [hh] at h; simp at h
    | some p =>
      obtain ⟨w, tl⟩ := p
      rw [hh] at h
      simp only at h
      by_cases hv : ValidRune w = true
      · rw [if_pos hv] at h
        simp only [Except.ok.injEq, Prod.mk.injEq] at h
        rw [← h.2.2]
        exact readHex_length _ 0 s w tl hh
      · rw [if_neg hv] at h; simp at h
  rw [if_neg hu] at h
  by_cases ho : 48 ≤ e.toNat ∧ e.toNat ≤ 55
  · rw [if_pos ho] at h
    cases hh : readOct 2 (e.toNat - 48) s with
    | none => rw [hh] at h; simp at h
    | some p =>
      obtain ⟨w, tl⟩ := p
      rw [hh] at h
      simp only at h
      by_cases hw : w > 255
      · rw [if_pos hw] at h; simp at h
      · rw [if_neg hw] at h
        simp only [Except.ok.injEq, Prod.mk.injEq] at h
        rw [← h.2.2]
        exact readOct_length 2 _ s w tl hh
  rw [if_neg ho] at h
  by_cases hb : e = '\\'
  · rw [if_pos hb] at h; exact fin h
  rw [if_neg hb] at h
  by_cases hq : e = '\'' ∨ e = '"'
  · rw [if_pos hq] at h
    by_cases hne : e ≠ q
    · rw [if_pos hne] at h; simp at h
    · rw [if_neg hne] at h; exact fin h
  rw [if_neg hq] at h
  simp at h

theorem UnquoteChar_length (s : List Char) (q : Char) (r : Nat) (mb : Bool)
    (tail : List Char)
    (h : UnquoteChar s q = .ok (r, mb, tail)) : tail.length < s.length := by
  cases s with
  | nil => simp [UnquoteChar] at h
  | cons c s1 =>
    simp only [UnquoteChar] at h
    by_cases h1 : c = q ∧ (q = '\'' ∨ q = '"')
    · rw [if_pos h1] at h; simp at h
    rw [if_neg h1] at h
    by_cases h3 : c.toNat ≥ 0x80
    · rw [if_pos h3] at h
      simp only [Except.ok.injEq, Prod.mk.injEq] at h
      rw [← h.2.2]
      simp
    rw [if_neg h3] at h
    by_cases h2 : c ≠ '\\'
    · rw [if_pos h2] at h
      simp only [Except.ok.injEq, Prod.mk.injEq] at h
      rw [← h.2.2]
      simp
    rw [if_neg h2] at h
    cases s1 with
    | nil => simp at h
    | cons e s2 =>
      simp only at h
      have := unquoteEscape_length e s2 q r mb tail h
      simp only [List.length_cons]
      omega

/-- The fuel of `unquoteLoop` never runs out when it starts at the length of
the text: any larger fuel gives the same result. -/
theorem unquoteLoop_fuel (q : Char) : ∀ (fuel : Nat) (s : List Char), s.length ≤ fuel →
    unquoteLoop q fuel s = unquoteLoop q s.length s := by
  intro fuel
  induction fuel using Nat.strong_induction_on with
  | _ fuel ih =>
    intro s hs
    cases s with
    | nil => cases fuel <;> rfl
    | cons c s1 =>
      cases fuel with
      | zero => simp at hs
      | succ f =>
        simp only [List.length_cons, unquoteLoop]
        cases hu : UnquoteChar (c :: s1) q with
        | error e => rfl
        | ok p =>
          obtain ⟨r, mb, tail⟩ := p
          have hlen := UnquoteChar_length (c :: s1) q r mb tail hu
          simp only [List.length_cons] at hlen hs
          have e1 := ih f (by omega) tail (by omega)
          have e2 := ih s1.length (by omega) tail (by omega)
          simp only [e1, e2]

end strconv

/-! ## The synthesizer -/

theorem chain_append (base : Expr) (xs ys : List (String × List Expr)) :
    chain base (xs ++ ys) = chain (chain base xs) ys := by
  simp [chain, List.foldl_append]

theorem method_if (b : builderCall) (c : Prop) [Decidable c] (m : String) (a : List Expr) :
    (if c then b.method m a else b) = ⟨chain b.curr (if c then [(m, a)] else [])⟩ := by
  by_cases h : c <;> simp [h, chain, builderCall.method]

theorem combine_if (acc : List String) (c : Prop) [Decidable c] (f : String) :
    (if c then some (combineUnsupported
        (if acc = [] then none else some (.unsupportedFeature acc)) f)
      else (if acc = [] then none else some (.unsupportedFeature acc)))
    = (if acc ++ (if c then [f] else []) = [] then none
       else some (.unsupportedFeature (acc ++ (if c then [f] else [])))) := by
  by_cases h : c <;> by_cases ha : acc = [] <;> simp [h, ha, combineUnsupported]

/-- The plain-scalar path in closed form: the aggregated error when a rejected
field is set, the base call extended by the set modifiers otherwise. -/
theorem fromSimpleType_eq (tbl : Char → Bool) (d : Descriptor) :
    fromSimpleType tbl d =
      if rejectedFields d = [] then
        .ok (chain (newFieldCall tbl d).curr (setModifiers tbl d))
      else .error (.unsupportedFeature (rejectedFields d)) := by
  have h0 : ∀ (c : Prop) [Decidable c] (f : String),
      (if c then some (combineUnsupported none f) else none)
        = (if ([] ++ (if c then [f] else []) : List String) = [] then none
           else some (.unsupportedFeature ([] ++ (if c then [f] else [])))) := by
    intro c _ f
    by_cases h : c <;> simp [h, combineUnsupported]
  have hlen : ∀ {α : Type} (l : List α), (l.length ≠ 0) = (l ≠ []) := by
    intro α l; cases l <;> simp
  have hpos : ∀ {α : Type} (l : List α), (l.length > 0) = (l ≠ []) := by
    intro α l; cases l <;> simp
  simp only [fromSimpleType, h0, combine_if, method_if, ← chain_append, hlen, hpos]
  simp only [List.nil_append]
  change (match (if rejectedFields d = [] then none
      else some (Failure.unsupportedFeature (rejectedFields d))) with
    | some err => Except.error err
    | none => Except.ok (chain (newFieldCall tbl d).curr (setModifiers tbl d))) = _
  by_cases h : rejectedFields d = [] <;> simp [h]

theorem rejectedFields_eq_nil (d : Descriptor) :
    rejectedFields d = [] ↔
      d.Annotations = [] ∧ d.Validators = [] ∧ d.Default = none ∧ d.UpdateDefault = none := by
  unfold rejectedFields
  by_cases h1 : d.Annotations = [] <;> by_cases h2 : d.Validators = [] <;>
    by_cases h3 : d.Default = none <;> by_cases h4 : d.UpdateDefault = none <;>
    simp [h1, h2, h3, h4]

theorem Field_simple (tbl : Char → Bool) (d : Descriptor) (h : isSimpleType d.Info.type = true) :
    Field tbl d = fromSimpleType tbl d := by
  simp only [isSimpleType] at h
  simp [Field, h]

theorem Field_enum (tbl : Char → Bool) (d : Descriptor) (h : d.Info.type = .TypeEnum) :
    Field tbl d = fromEnumType tbl d := by
  simp [Field, h, field.FieldType.Numeric, field.FieldType.toNat, field.endTypes]

theorem enumModifier_values (pairs : List field.EnumPair) (h : ∀ p ∈ pairs, p.N = p.V) :
    enumModifier pairs = "Values" := by
  induction pairs with
  | nil => rfl
  | cons p ps ih =>
    simp only [enumModifier]
    rw [if_neg (by simpa using h p (List.mem_cons_self _ _))]
    exact ih (fun q hq => h q (List.mem_cons_of_mem _ hq))

theorem enumModifier_namedValues (pairs : List field.EnumPair) (h : ∃ p ∈ pairs, p.N ≠ p.V) :
    enumModifier pairs = "NamedValues" := by
  induction pairs with
  | nil => obtain ⟨p, hp, _⟩ := h; simp at hp
  | cons p ps ih =>
    simp only [enumModifier]
    by_cases hp : p.N ≠ p.V
    · rw [if_pos hp]
    · rw [if_neg hp]
      obtain ⟨q, hq, hne⟩ := h
      rcases List.mem_cons.mp hq with rfl | hq
      · exact absurd hne hp
      · exact ih ⟨q, hq, hne⟩

theorem enumArgs_values (tbl : Char → Bool) (pairs : List field.EnumPair) :
    enumArgs tbl "Values" pairs = pairs.map (fun p => strLit tbl p.N) := by
  induction pairs with
  | nil => rfl
  | cons p ps ih =>
    simp only [enumArgs, List.map_cons]
    rw [if_neg (by decide), ih]

theorem enumArgs_namedValues (tbl : Char → Bool) (pairs : List field.EnumPair) :
    enumArgs tbl "NamedValues" pairs
      = pairs.flatMap (fun p => [strLit tbl p.N, strLit tbl p.V]) := by
  induction pairs with
  | nil => rfl
  | cons p ps ih =>
    simp only [enumArgs, List.flatMap_cons, if_true, ih]
    rfl

/-! ## The name extractor -/

theorem extractFieldName_method (fn : Expr) (args : List Expr) (m : String)
    (args2 : List Expr) :
    extractFieldName (.SelectorExpr (.CallExpr fn args) m) args2 = extractFieldName fn args := by
  rw [extractFieldName]

theorem itemName_chain (calls : List (String × List Expr)) :
    ∀ (fn : Expr) (args : List Expr),
      itemName (chain (.CallExpr fn args) calls) = extractFieldName fn args := by
  induction calls with
  | nil => intro fn args; rfl
  | cons call calls ih =>
    intro fn args
    have h := ih (.SelectorExpr (.CallExpr fn args) call.1) call.2
    rw [extractFieldName_method] at h
    exact h

theorem chain_isCall (fn : Expr) (args : List Expr) (calls : List (String × List Expr)) :
    ∃ f a, chain (.CallExpr fn args) calls = .CallExpr f a := by
  induction calls using List.reverseRecOn with
  | nil => exact ⟨fn, args, rfl⟩
  | append_singleton calls call _ =>
    rw [chain_append]
    exact ⟨_, _, rfl⟩

theorem itemName_newFieldCall (tbl : Char → Bool) (d : Descriptor) :
    itemName (newFieldCall tbl d).curr = .ok (goString d.Name) := by
  simp [itemName, newFieldCall, extractFieldName, nameArg, strLit, strconv.Unquote_Quote]

/-- What `Field` returns is a call whose extracted name is the descriptor's. -/
theorem Field_itemName (tbl : Char → Bool) (d : Descriptor) (call : Expr)
    (h : Field tbl d = .ok call) :
    (∃ fn args, call = .CallExpr fn args) ∧ itemName call = .ok (goString d.Name) := by
  have hs : ∀ base, fromSimpleType tbl d = .ok base →
      (∃ fn args, base = .CallExpr fn args) ∧ itemName base = .ok (goString d.Name) := by
    intro base hb
    rw [fromSimpleType_eq] at hb
    split_ifs at hb
    injection hb with hb
    subst hb
    constructor
    · exact chain_isCall _ _ _
    · have := itemName_chain (setModifiers tbl d) (.SelectorExpr (.Ident "field")
        (fieldConstructor d)) [strLit tbl d.Name]
      rw [newFieldCall]
      rw [this]
      simpa [itemName, newFieldCall] using itemName_newFieldCall tbl d
  unfold Field at h
  simp only at h
  split_ifs at h with h1 h2
  · exact hs call h
  · unfold fromEnumType at h
    cases hb : fromSimpleType tbl d with
    | error e => rw [hb] at h; simp at h
    | ok base =>
      rw [hb] at h
      simp only [builderCall.method, Except.ok.injEq] at h
      subst h
      obtain ⟨⟨fn, args, rfl⟩, hn⟩ := hs base hb
      exact ⟨⟨_, _, rfl⟩, by simpa [itemName, extractFieldName_method] using hn⟩

/-! ## The context -/

theorem isMethod_setBody (t m : String) (fd : FuncDecl) (body : List Stmt) :
    FuncDecl.isMethod t m { fd with body := some body } = FuncDecl.isMethod t m fd := rfl

theorem find?_setBody (t m : String) (body : List Stmt) (l : List FuncDecl) :
    (setBody (FuncDecl.isMethod t m) body l).find? (FuncDecl.isMethod t m)
      = (l.find? (FuncDecl.isMethod t m)).map (fun fd => { fd with body := some body }) := by
  induction l with
  | nil => rfl
  | cons fd rest ih =>
    by_cases h : FuncDecl.isMethod t m fd = true
    · simp [setBody, h, List.find?_cons, isMethod_setBody]
    · simp [setBody, h, List.find?_cons, ih]

theorem setBody_of_not_any (p : FuncDecl → Bool) (body : List Stmt) (l : List FuncDecl)
    (h : l.any p = false) : setBody p body l = l := by
  induction l with
  | nil => rfl
  | cons fd rest ih =>
    simp only [List.any_cons, Bool.or_eq_false_iff] at h
    simp [setBody, h.1, ih h.2]

theorem setBody_append (p : FuncDecl → Bool) (body : List Stmt) (l1 l2 : List FuncDecl) :
    setBody p body (l1 ++ l2)
      = if l1.any p then setBody p body l1 ++ l2 else l1 ++ setBody p body l2 := by
  induction l1 with
  | nil => simp
  | cons fd rest ih =>
    by_cases h : p fd = true
    · simp [setBody, h]
    · simp only [Bool.not_eq_true] at h
      have h1 : setBody p body (fd :: rest ++ l2) = fd :: setBody p body (rest ++ l2) := by
        simp [setBody, h]
      have h2 : setBody p body (fd :: rest) = fd :: setBody p body rest := by
        simp [setBody, h]
      have h3 : (fd :: rest).any p = rest.any p := by simp [h]
      rw [h1, h2, h3, ih]
      by_cases hr : rest.any p = true
      · rw [if_pos hr, if_pos hr]; rfl
      · rw [if_neg hr, if_neg hr]; rfl

theorem flatMap_setBodyNew (p : FuncDecl → Bool) (body : List Stmt)
    (l : List (String × List FuncDecl)) :
    (setBodyNew p body l).flatMap (fun entry => entry.2)
      = setBody p body (l.flatMap (fun entry => entry.2)) := by
  induction l with
  | nil => rfl
  | cons entry rest ih =>
    simp only [setBodyNew, List.flatMap_cons, setBody_append]
    split <;> simp [ih]

theorem allDecls_setResults (c : Context) (t : String) (results : List Expr) :
    (c.setResults t results).allDecls
      = setBody (FuncDecl.isMethod t "Fields") [.ReturnStmt results] c.allDecls := by
  simp only [Context.setResults, Context.allDecls, setBody_append]
  split <;> simp [flatMap_setBodyNew]

theorem lookupMethod_setResults (c : Context) (t : String) (fd : FuncDecl)
    (results : List Expr) (h : c.lookupMethod t "Fields" = .ok fd) :
    (c.setResults t results).lookupMethod t "Fields"
      = .ok { fd with body := some [.ReturnStmt results] } := by
  unfold Context.lookupMethod at h ⊢
  simp only [allDecls_setResults, find?_setBody]
  cases hf : c.allDecls.find? (FuncDecl.isMethod t "Fields") with
  | none => rw [hf] at h; simp at h
  | some fd2 =>
    rw [hf] at h
    simp only [Except.ok.injEq] at h
    subst h
    rfl

theorem fieldsReturnStmt_of_lookup (c : Context) (t : String) (fd : FuncDecl)
    (results : List Expr) (h : c.lookupMethod t "Fields" = .ok fd)
    (hb : fd.body = some [.ReturnStmt results]) : c.fieldsReturnStmt t = .ok results := by
  simp [Context.fieldsReturnStmt, h, hb]

/-! ## The declaration-list editor -/

theorem AppendField_nil (tbl : Char → Bool) (c : Context) (t : String) (d : Descriptor)
    (call : Expr) (hr : c.fieldsReturnStmt t = .ok [.Ident "nil"])
    (hf : Field tbl d = .ok call) :
    c.AppendField tbl t d = (.ok (), c.setResults t [newFieldSliceWith call]) := by
  simp [Context.AppendField, hr, hf]

theorem AppendField_list (tbl : Char → Bool) (c : Context) (t : String) (d : Descriptor)
    (call ty : Expr) (L more : List Expr)
    (hr : c.fieldsReturnStmt t = .ok (.CompositeLit ty L :: more))
    (hf : Field tbl d = .ok call) :
    c.AppendField tbl t d
      = (.ok (), c.setResults t (.CompositeLit ty (L ++ [call]) :: more)) := by
  simp [Context.AppendField, hr, hf]

theorem removeLoop_absent (fieldName : String) (elts : List Expr) (items : List Expr) :
    ∀ i, (∀ e ∈ items, ∃ n, itemName e = .ok n ∧ n ≠ goString fieldName) →
      removeLoop fieldName elts i items = .ok none := by
  induction items with
  | nil => intro i _; rfl
  | cons item items ih =>
    intro i h
    obtain ⟨n, hn, hne⟩ := h item (List.mem_cons_self _ _)
    simp only [removeLoop, hn, if_neg hne]
    exact ih (i + 1) (fun e he => h e (List.mem_cons_of_mem _ he))

theorem removeLoop_found (fieldName : String) (elts : List Expr) (pre : List Expr)
    (x : Expr) (post : List Expr) (hx : itemName x = .ok (goString fieldName)) :
    ∀ i, (∀ e ∈ pre, ∃ n, itemName e = .ok n ∧ n ≠ goString fieldName) →
      removeLoop fieldName elts i (pre ++ x :: post)
        = .ok (some (elts.take (i + pre.length) ++ elts.drop (i + pre.length + 1))) := by
  induction pre with
  | nil => intro i _; simp [removeLoop, hx]
  | cons item pre ih =>
    intro i h
    obtain ⟨n, hn, hne⟩ := h item (List.mem_cons_self _ _)
    simp only [List.cons_append, removeLoop, hn, if_neg hne, List.length_cons, List.append_eq]
    rw [ih (i + 1) (fun e he => h e (List.mem_cons_of_mem _ he))]
    have : i + 1 + pre.length = i + (pre.length + 1) := by omega
    rw [this]

theorem removeLoop_some (fieldName : String) (elts : List Expr) (items : List Expr) :
    ∀ i r, removeLoop fieldName elts i items = .ok (some r) →
      ∃ pre x post, items = pre ++ x :: post ∧ itemName x = .ok (goString fieldName) ∧
        (∀ e ∈ pre, ∃ n, itemName e = .ok n ∧ n ≠ goString fieldName) ∧
        r = elts.take (i + pre.length) ++ elts.drop (i + pre.length + 1) := by
  induction items with
  | nil => intro i r h; simp [removeLoop] at h
  | cons item items ih =>
    intro i r h
    simp only [removeLoop] at h
    cases hn : itemName item with
    | error e => rw [hn] at h; simp at h
    | ok n =>
      rw [hn] at h
      simp only at h
      by_cases hne : n = goString fieldName
      · rw [if_pos hne] at h
        simp only [Except.ok.injEq, Option.some.injEq] at h
        exact ⟨[], item, items, rfl, by rw [hn, hne], by simp, by simpa using h.symm⟩
      · rw [if_neg hne] at h
        obtain ⟨pre, x, post, hi, hx, hpre, hr⟩ := ih (i + 1) r h
        refine ⟨item :: pre, x, post, by rw [hi]; rfl, hx, ?_, ?_⟩
        · intro e he
          rcases List.mem_cons.mp he with rfl | he
          · exact ⟨n, hn, hne⟩
          · exact hpre e he
        · rw [hr, List.length_cons]
          have : i + 1 + pre.length = i + (pre.length + 1) := by omega
          rw [this]

theorem take_drop_split (pre : List Expr) (x : Expr) (post : List Expr) :
    (pre ++ x :: post).take (0 + pre.length) ++ (pre ++ x :: post).drop (0 + pre.length + 1)
      = pre ++ post := by
  simp

/-! ## The claims -/

/-- C1: when the `Fields` method body is the single statement `return nil` and
`Field` accepts the descriptor, `AppendField` succeeds, the returned value
becomes a list literal whose only element is the synthesized call, and
`extractFieldName` on that element returns the descriptor's name. -/
theorem C1_append_nil_then_extract (tbl : Char → Bool) (c : Context) (typeName : String)
    (fd : FuncDecl) (d : Descriptor) (call : Expr)
    (hl : c.lookupMethod typeName "Fields" = .ok fd)
    (hb : fd.body = some [.ReturnStmt [.Ident "nil"]])
    (hf : Field tbl d = .ok call) :
    (c.AppendField tbl typeName d).1 = .ok () ∧
    (c.AppendField tbl typeName d).2.lookupMethod typeName "Fields"
      = .ok { fd with body := some [.ReturnStmt [.CompositeLit
          (.ArrayType (.SelectorExpr (.Ident "ent") "Field")) [call]]] } ∧
    ∃ fn args, call = .CallExpr fn args ∧ extractFieldName fn args = .ok (goString d.Name) := by
  have hr := fieldsReturnStmt_of_lookup c typeName fd _ hl hb
  rw [AppendField_nil tbl c typeName d call hr hf]
  refine ⟨rfl, lookupMethod_setResults c typeName fd _ hl, ?_⟩
  obtain ⟨⟨fn, args, rfl⟩, hn⟩ := Field_itemName tbl d call hf
  exact ⟨fn, args, rfl, hn⟩

/-- Witness of C1: appending `field.Int("age").Optional().Comment("years")` to
a `User` type that returns `nil`. -/
theorem C1_append_nil_then_extract_witness :
    (userContext [.Ident "nil"]).lookupMethod "User" "Fields"
      = .ok (userFields [.Ident "nil"]) ∧
    ((userContext [.Ident "nil"]).AppendField asciiTable "User" intAge).1 = .ok () ∧
    ∃ fn args, chain (fieldCall "Int" "age")
        [("Optional", []), ("Comment", [.BasicLit .STRING "\"years\""])] = .CallExpr fn args ∧
      extractFieldName fn args = .ok (goString "age") :=
  have h := C1_append_nil_then_extract asciiTable (userContext [.Ident "nil"]) "User"
    (userFields [.Ident "nil"]) intAge
    (chain (fieldCall "Int" "age") [("Optional", []), ("Comment", [.BasicLit .STRING "\"years\""])])
    (by decide) (by decide) (by decide)
  ⟨by decide, h.1, h.2.2⟩

/-- Counterexample to C2 as stated. First, `User` already declares
`field.Int("x")`: appending the string descriptor named `x` and removing `x`
succeeds but deletes the older declaration, so the list ends as
`[field.String("x")]` and not as it was. Second, `User` holds an element that
is no call (the identifier `idField`): after the same append, the removal
fails on that element. -/
theorem C2_append_then_remove_counterexample :
    (Field asciiTable stringX = .ok (fieldCall "String" "x") ∧
     (((userContext [.CompositeLit entFieldSlice [fieldCall "Int" "x"]]).AppendField
        asciiTable "User" stringX).2.RemoveField asciiTable "User" "x").1 = .ok () ∧
     (((userContext [.CompositeLit entFieldSlice [fieldCall "Int" "x"]]).AppendField
        asciiTable "User" stringX).2.RemoveField asciiTable "User" "x").2
       = userContext [.CompositeLit entFieldSlice [fieldCall "String" "x"]] ∧
     [fieldCall "String" "x"] ≠ [fieldCall "Int" "x"]) ∧
    (((userContext [.CompositeLit entFieldSlice [.Ident "idField"]]).AppendField
        asciiTable "User" stringX).1 = .ok () ∧
     (((userContext [.CompositeLit entFieldSlice [.Ident "idField"]]).AppendField
        asciiTable "User" stringX).2.RemoveField asciiTable "User" "x").1
       = .error (.errorf
          "schemast: expected return statement elements to be call expressions")) := by
  decide

/-- C2, amended: when the `Fields` method returns a list literal `L` whose
elements are all field chains with an extracted name different from `X`, and
`Field` accepts the descriptor `d` named `X`, then `AppendField(typeName, d)`
followed by `RemoveField(typeName, X)` succeeds and leaves the list literal
with the elements `L`, in the same order. -/
theorem C2_append_then_remove (tbl : Char → Bool) (c : Context) (typeName : String)
    (fd : FuncDecl) (d : Descriptor) (call ty : Expr) (L more : List Expr)
    (hl : c.lookupMethod typeName "Fields" = .ok fd)
    (hb : fd.body = some [.ReturnStmt (.CompositeLit ty L :: more)])
    (hf : Field tbl d = .ok call)
    (hL : ∀ e ∈ L, ∃ n, itemName e = .ok n ∧ n ≠ goString d.Name) :
    (c.AppendField tbl typeName d).1 = .ok () ∧
    ((c.AppendField tbl typeName d).2.RemoveField tbl typeName d.Name).1 = .ok () ∧
    ((c.AppendField tbl typeName d).2.RemoveField tbl typeName d.Name).2.lookupMethod
        typeName "Fields"
      = .ok { fd with body := some [.ReturnStmt (.CompositeLit ty L :: more)] } := by
  have hr := fieldsReturnStmt_of_lookup c typeName fd _ hl hb
  rw [AppendField_list tbl c typeName d call ty L more hr hf]
  have hl1 := lookupMethod_setResults c typeName fd (.CompositeLit ty (L ++ [call]) :: more) hl
  have hr1 := fieldsReturnStmt_of_lookup _ typeName _ _ hl1 rfl
  have hloop := removeLoop_found d.Name (L ++ [call]) L call []
    (Field_itemName tbl d call hf).2 0 hL
  have hrm : (c.setResults typeName (.CompositeLit ty (L ++ [call]) :: more)).RemoveField tbl
      typeName d.Name = (.ok (), (c.setResults typeName
        (.CompositeLit ty (L ++ [call]) :: more)).setResults typeName
          (.CompositeLit ty L :: more)) := by
    simp only [Context.RemoveField, hr1, hloop]
    simp
  rw [hrm]
  have hl2 := lookupMethod_setResults _ typeName _ (.CompositeLit ty L :: more) hl1
  exact ⟨rfl, rfl, hl2⟩

/-- Witness of C2 (amended): `User` declares `field.Int("id")` and
`field.String("\xc3\xa9")`, a name written with byte escapes; appending and
removing the string field `x` leaves both declarations alone. -/
theorem C2_append_then_remove_witness :
    (∀ e ∈ [fieldCall "Int" "id", fieldCall "String" "\\xc3\\xa9"],
      ∃ n, itemName e = .ok n ∧ n ≠ goString stringX.Name) ∧
    (((userContext [.CompositeLit entFieldSlice
        [fieldCall "Int" "id", fieldCall "String" "\\xc3\\xa9"]]).AppendField
        asciiTable "User" stringX).2.RemoveField asciiTable "User" stringX.Name).2
      = userContext [.CompositeLit entFieldSlice
          [fieldCall "Int" "id", fieldCall "String" "\\xc3\\xa9"]] ∧
    (((userContext [.CompositeLit entFieldSlice
        [fieldCall "Int" "id", fieldCall "String" "\\xc3\\xa9"]]).AppendField
        asciiTable "User" stringX).2.RemoveField asciiTable "User" stringX.Name).1 = .ok () :=
  have hL : ∀ e ∈ [fieldCall "Int" "id", fieldCall "String" "\\xc3\\xa9"],
      ∃ n, itemName e = .ok n ∧ n ≠ goString stringX.Name := by
    intro e he
    simp only [List.mem_cons, List.mem_singleton, List.not_mem_nil, or_false] at he
    rcases he with rfl | rfl
    · exact ⟨goString "id", by decide, by decide⟩
    · exact ⟨goString "é", by decide, by decide⟩
  ⟨hL, by decide, (C2_append_then_remove asciiTable
    (userContext [.CompositeLit entFieldSlice
      [fieldCall "Int" "id", fieldCall "String" "\\xc3\\xa9"]]) "User"
    (userFields [.CompositeLit entFieldSlice
      [fieldCall "Int" "id", fieldCall "String" "\\xc3\\xa9"]]) stringX
    (fieldCall "String" "x") entFieldSlice
    [fieldCall "Int" "id", fieldCall "String" "\\xc3\\xa9"] []
    (by decide) (by decide) (by decide) hL).2.1⟩

/-- Counterexample to C3 as stated: a JSON descriptor with a validator set.
`Field` dispatches on the type before any rejected field is looked at, so the
failure is the unsupported-type error and not the unsupported-feature error. -/
theorem C3_unsupported_feature_counterexample :
    jsonValidated.Validators ≠ [] ∧
    Field asciiTable jsonValidated
      = .error (.errorf "schemast: unsupported type TypeJSON") ∧
    ¬ ∃ features, Field asciiTable jsonValidated = .error (.unsupportedFeature features) := by
  refine ⟨by decide, by decide, ?_⟩
  rintro ⟨features, h⟩
  have h2 : Field asciiTable jsonValidated
      = .error (.errorf "schemast: unsupported type TypeJSON") := by decide
  rw [h2] at h
  simp at h

/-- C3, amended: for every descriptor of a numeric, string, boolean or enum
type in which at least one of Annotations, Validators, Default, UpdateDefault
is set, `Field` returns no tree and fails with the unsupported-feature error,
and that error enumerates exactly the set fields among
`Descriptor.Annotations`, `Descriptor.Validators`, `Descriptor.Default`,
`Descriptor.UpdateDefault`, in that fixed order, and no others. -/
theorem C3_unsupported_feature (tbl : Char → Bool) (d : Descriptor)
    (ht : isSimpleType d.Info.type = true ∨ d.Info.type = .TypeEnum)
    (hset : d.Annotations ≠ [] ∨ d.Validators ≠ [] ∨ d.Default ≠ none ∨
      d.UpdateDefault ≠ none) :
    Field tbl d = .error (.unsupportedFeature (rejectedFields d)) ∧
    (rejectedFields d).Sublist ["Descriptor.Annotations", "Descriptor.Validators",
      "Descriptor.Default", "Descriptor.UpdateDefault"] ∧
    ("Descriptor.Annotations" ∈ rejectedFields d ↔ d.Annotations ≠ []) ∧
    ("Descriptor.Validators" ∈ rejectedFields d ↔ d.Validators ≠ []) ∧
    ("Descriptor.Default" ∈ rejectedFields d ↔ d.Default ≠ none) ∧
    ("Descriptor.UpdateDefault" ∈ rejectedFields d ↔ d.UpdateDefault ≠ none) := by
  have hne : rejectedFields d ≠ [] := by
    rw [Ne, rejectedFields_eq_nil]
    tauto
  have hs : fromSimpleType tbl d = .error (.unsupportedFeature (rejectedFields d)) := by
    rw [fromSimpleType_eq, if_neg hne]
  refine ⟨?_, ?_⟩
  · rcases ht with ht | ht
    · rw [Field_simple tbl d ht, hs]
    · rw [Field_enum tbl d ht, fromEnumType, hs]
  · unfold rejectedFields
    by_cases h1 : d.Annotations = [] <;> by_cases h2 : d.Validators = [] <;>
      by_cases h3 : d.Default = none <;> by_cases h4 : d.UpdateDefault = none <;>
      simp [h1, h2, h3, h4]

/-- Witness of C3 (amended): a string descriptor with a validator and an update
default is refused with exactly these two names, in this order. -/
theorem C3_unsupported_feature_witness :
    (isSimpleType stringRejected.Info.type = true ∨ stringRejected.Info.type = .TypeEnum) ∧
    Field asciiTable stringRejected
      = .error (.unsupportedFeature ["Descriptor.Validators", "Descriptor.UpdateDefault"]) :=
  ⟨by decide, (C3_unsupported_feature asciiTable stringRejected (by decide) (by decide)).1⟩

/-- C4: for every call-expression tree `c = fn(args...)`, every method name
`m` and every argument list, `extractFieldName` of the extended chain
`c.m(args2...)` gives the same result (same name or same failure) as
`extractFieldName(c)`; hence the name extracted from a chain with any number of
modifiers stacked on top is the one of its innermost call. -/
theorem C4_extract_ignores_modifiers (fn : Expr) (args : List Expr) :
    (∀ (m : String) (args2 : List Expr),
      extractFieldName (.SelectorExpr (.CallExpr fn args) m) args2
        = extractFieldName fn args) ∧
    (∀ calls : List (String × List Expr),
      itemName (chain (.CallExpr fn args) calls) = extractFieldName fn args) :=
  ⟨fun m args2 => extractFieldName_method fn args m args2,
   fun calls => itemName_chain calls fn args⟩

/-- C5: for every enum descriptor with `N` enum pairs and no rejected field
set, `Field` returns the plain-scalar chain extended by exactly one further
outermost call: `Values` with the `N` string literals `n1..nN` in pair order
if every pair has name equal to value, `NamedValues` with the `2N` string
literals `n1, v1, n2, v2, ...` in pair order if some pair has name different
from value. -/
theorem C5_enum_values (tbl : Char → Bool) (d : Descriptor)
    (ht : d.Info.type = .TypeEnum)
    (hrej : d.Annotations = [] ∧ d.Validators = [] ∧ d.Default = none ∧
      d.UpdateDefault = none) :
    fromSimpleType tbl d = .ok (chain (newFieldCall tbl d).curr (setModifiers tbl d)) ∧
    ((∀ p ∈ d.Enums, p.N = p.V) →
      Field tbl d = .ok (.CallExpr
        (.SelectorExpr (chain (newFieldCall tbl d).curr (setModifiers tbl d)) "Values")
        (d.Enums.map fun p => strLit tbl p.N)) ∧
      (d.Enums.map fun p => strLit tbl p.N).length = d.Enums.length) ∧
    ((∃ p ∈ d.Enums, p.N ≠ p.V) →
      Field tbl d = .ok (.CallExpr
        (.SelectorExpr (chain (newFieldCall tbl d).curr (setModifiers tbl d)) "NamedValues")
        (d.Enums.flatMap fun p => [strLit tbl p.N, strLit tbl p.V])) ∧
      (d.Enums.flatMap fun p => [strLit tbl p.N, strLit tbl p.V]).length
        = 2 * d.Enums.length) := by
  have hs : fromSimpleType tbl d
      = .ok (chain (newFieldCall tbl d).curr (setModifiers tbl d)) := by
    rw [fromSimpleType_eq, if_pos ((rejectedFields_eq_nil d).mpr hrej)]
  refine ⟨hs, ?_, ?_⟩
  · intro hall
    constructor
    · rw [Field_enum tbl d ht, fromEnumType, hs]
      simp only [builderCall.method, enumModifier_values d.Enums hall, enumArgs_values]
    · simp
  · intro hex
    constructor
    · rw [Field_enum tbl d ht, fromEnumType, hs]
      simp only [builderCall.method, enumModifier_namedValues d.Enums hex, enumArgs_namedValues]
    · induction d.Enums with
      | nil => rfl
      | cons p ps ih => simp only [List.flatMap_cons, List.length_append, ih]; simp; omega

/-- Witness of C5: `field.Enum("state").Values("on", "off")`. -/
theorem C5_enum_values_witness :
    enumState.Info.type = .TypeEnum ∧
    Field asciiTable enumState = .ok (.CallExpr
      (.SelectorExpr (fieldCall "Enum" "state") "Values")
      [.BasicLit .STRING "\"on\"", .BasicLit .STRING "\"off\""]) :=
  ⟨rfl, ((C5_enum_values asciiTable enumState rfl (by decide)).2.1 (by decide)).1⟩

/-- C6: for every numeric, string or boolean descriptor with no rejected field
set, `Field` returns the base call `field.<Ctor>(name)` wrapped by one chained
call per set modifier and nothing else, innermost first in the fixed order
Nillable, Optional, Unique, Sensitive, Immutable (no arguments), Comment,
StructTag, StorageKey (one string literal each), SchemaType (one map literal);
a modifier's call is present if and only if its flag is true, its string is
non-empty, or its map is non-empty (`setModifiers`). -/
theorem C6_scalar_modifier_chain (tbl : Char → Bool) (d : Descriptor)
    (ht : isSimpleType d.Info.type = true)
    (hrej : d.Annotations = [] ∧ d.Validators = [] ∧ d.Default = none ∧
      d.UpdateDefault = none) :
    Field tbl d = .ok (chain
      (.CallExpr (.SelectorExpr (.Ident "field") (fieldConstructor d)) [strLit tbl d.Name])
      (setModifiers tbl d)) := by
  rw [Field_simple tbl d ht, fromSimpleType_eq, if_pos ((rejectedFields_eq_nil d).mpr hrej)]
  rfl

/-- Witness of C6: `field.Int("age").Optional().Comment("years")`. -/
theorem C6_scalar_modifier_chain_witness :
    isSimpleType intAge.Info.type = true ∧
    Field asciiTable intAge = .ok (.CallExpr (.SelectorExpr
      (.CallExpr (.SelectorExpr (fieldCall "Int" "age") "Optional") []) "Comment")
      [.BasicLit .STRING "\"years\""]) :=
  ⟨by decide, C6_scalar_modifier_chain asciiTable intAge (by decide) (by decide)⟩

/-- C7: for every numeric, string or boolean descriptor with all five modifier
flags false, empty comment, struct tag and storage key, empty schema-type map
and no rejected field set, `Field` succeeds and returns a call whose receiver
is the plain identifier `field` (no chained modifier call), whose selector is
the type's constant name with the prefix `Type` stripped, and whose argument
list is exactly one string literal holding the descriptor's name. -/
theorem C7_plain_scalar_call (tbl : Char → Bool) (d : Descriptor)
    (ht : isSimpleType d.Info.type = true)
    (hflags : d.Nillable = false ∧ d.Optional = false ∧ d.Unique = false ∧
      d.Sensitive = false ∧ d.Immutable = false)
    (hstr : d.Comment = "" ∧ d.Tag = "" ∧ d.StorageKey = "" ∧ d.SchemaType = [])
    (hrej : d.Annotations = [] ∧ d.Validators = [] ∧ d.Default = none ∧
      d.UpdateDefault = none) :
    Field tbl d = .ok (.CallExpr
      (.SelectorExpr (.Ident "field") (TrimPrefix d.Info.type.ConstName "Type"))
      [.BasicLit .STRING (strconv.Quote tbl d.Name)]) ∧
    strconv.Unquote (strconv.Quote tbl d.Name) = .ok (goString d.Name) := by
  refine ⟨?_, strconv.Unquote_Quote tbl d.Name⟩
  rw [Field_simple tbl d ht, fromSimpleType_eq, if_pos ((rejectedFields_eq_nil d).mpr hrej)]
  obtain ⟨h1, h2, h3, h4, h5⟩ := hflags
  obtain ⟨h6, h7, h8, h9⟩ := hstr
  simp [setModifiers, h1, h2, h3, h4, h5, h6, h7, h8, h9, chain, newFieldCall,
    fieldConstructor, field.TypeInfo.ConstName, strLit]

/-- Witness of C7: the descriptor of `field.String("x")`. -/
theorem C7_plain_scalar_call_witness :
    isSimpleType stringX.Info.type = true ∧
    Field asciiTable stringX = .ok (.CallExpr (.SelectorExpr (.Ident "field") "String")
      [.BasicLit .STRING "\"x\""]) :=
  ⟨by decide,
   (C7_plain_scalar_call asciiTable stringX (by decide) (by decide) (by decide)
     (by decide)).1⟩

/-- C8: when the `Fields` method returns a list literal whose elements are all
recognized field chains and `fieldName` is not the extracted name of any of
them, `RemoveField(typeName, fieldName)` fails with the field-not-found error
naming the field and the type, and nothing is changed: the list afterwards has
the same elements in the same order as before the call. -/
theorem C8_remove_absent (tbl : Char → Bool) (c : Context) (typeName fieldName : String)
    (fd : FuncDecl) (ty : Expr) (L more : List Expr)
    (hl : c.lookupMethod typeName "Fields" = .ok fd)
    (hb : fd.body = some [.ReturnStmt (.CompositeLit ty L :: more)])
    (hL : ∀ e ∈ L, ∃ n, itemName e = .ok n ∧ n ≠ goString fieldName) :
    (c.RemoveField tbl typeName fieldName).1
      = .error (.errorf ("schemast: could not find field " ++ strconv.Quote tbl fieldName
          ++ " in type " ++ strconv.Quote tbl typeName)) ∧
    (c.RemoveField tbl typeName fieldName).2 = c ∧
    (c.RemoveField tbl typeName fieldName).2.fieldsReturnStmt typeName
      = .ok (.CompositeLit ty L :: more) := by
  have hr := fieldsReturnStmt_of_lookup c typeName fd _ hl hb
  have hrm : c.RemoveField tbl typeName fieldName
      = (.error (.errorf ("schemast: could not find field " ++ strconv.Quote tbl fieldName
          ++ " in type " ++ strconv.Quote tbl typeName)), c) := by
    simp only [Context.RemoveField, hr, removeLoop_absent fieldName L L 0 hL]
  rw [hrm]
  exact ⟨rfl, rfl, hr⟩

/-- Witness of C8: removing `zz` from a `User` type that declares
`field.String("\xc3\xa9")` (the name `é` written with byte escapes),
`field.String("\xff")` (a name that is no valid UTF-8) and `field.Int("id")`. -/
theorem C8_remove_absent_witness :
    (∀ e ∈ [fieldCall "String" "\\xc3\\xa9", fieldCall "String" "\\xff", fieldCall "Int" "id"],
      ∃ n, itemName e = .ok n ∧ n ≠ goString "zz") ∧
    itemName (fieldCall "String" "\\xc3\\xa9") = .ok (goString "é") ∧
    itemName (fieldCall "String" "\\xff") = .ok [255] ∧
    ((userContext [.CompositeLit entFieldSlice
        [fieldCall "String" "\\xc3\\xa9", fieldCall "String" "\\xff",
          fieldCall "Int" "id"]]).RemoveField asciiTable "User" "zz").1
      = .error (.errorf "schemast: could not find field \"zz\" in type \"User\"") :=
  have hL : ∀ e ∈ [fieldCall "String" "\\xc3\\xa9", fieldCall "String" "\\xff",
      fieldCall "Int" "id"], ∃ n, itemName e = .ok n ∧ n ≠ goString "zz" := by
    intro e he
    simp only [List.mem_cons, List.mem_singleton, List.not_mem_nil, or_false] at he
    rcases he with rfl | rfl | rfl
    · exact ⟨goString "é", by decide, by decide⟩
    · exact ⟨[255], by decide, by decide⟩
    · exact ⟨goString "id", by decide, by decide⟩
  ⟨hL, by decide, by decide, (C8_remove_absent asciiTable
    (userContext [.CompositeLit entFieldSlice
      [fieldCall "String" "\\xc3\\xa9", fieldCall "String" "\\xff", fieldCall "Int" "id"]])
    "User" "zz"
    (userFields [.CompositeLit entFieldSlice
      [fieldCall "String" "\\xc3\\xa9", fieldCall "String" "\\xff", fieldCall "Int" "id"]])
    entFieldSlice
    [fieldCall "String" "\\xc3\\xa9", fieldCall "String" "\\xff", fieldCall "Int" "id"] []
    (by decide) (by decide) hL).1⟩

/-- C9: whenever `RemoveField(typeName, fieldName)` succeeds on a list literal
`L`, the resulting list is `L` with exactly one element deleted, namely the
first element whose extracted name equals `fieldName`: `L` is `pre ++ x :: post`
where `x` has that name and no element of `pre` has it, and the list becomes
`pre ++ post`, so every other element, later elements of the same name
included, is kept in its original relative order. -/
theorem C9_remove_first_match (tbl : Char → Bool) (c : Context)
    (typeName fieldName : String) (fd : FuncDecl) (ty : Expr) (L more : List Expr)
    (hl : c.lookupMethod typeName "Fields" = .ok fd)
    (hb : fd.body = some [.ReturnStmt (.CompositeLit ty L :: more)])
    (hok : (c.RemoveField tbl typeName fieldName).1 = .ok ()) :
    ∃ pre x post, L = pre ++ x :: post ∧ itemName x = .ok (goString fieldName) ∧
      (∀ e ∈ pre, ∃ n, itemName e = .ok n ∧ n ≠ goString fieldName) ∧
      (c.RemoveField tbl typeName fieldName).2.lookupMethod typeName "Fields"
        = .ok { fd with body := some [.ReturnStmt (.CompositeLit ty (pre ++ post) :: more)] } := by
  have hr := fieldsReturnStmt_of_lookup c typeName fd _ hl hb
  simp only [Context.RemoveField, hr] at hok ⊢
  cases hloop : removeLoop fieldName L 0 L with
  | error e => rw [hloop] at hok; simp at hok
  | ok res =>
    cases res with
    | none => rw [hloop] at hok; simp at hok
    | some r =>
      obtain ⟨pre, x, post, hsplit, hx, hpre, hres⟩ := removeLoop_some fieldName L L 0 r hloop
      refine ⟨pre, x, post, hsplit, hx, hpre, ?_⟩
      have hrr : r = pre ++ post := by
        rw [hres, hsplit]
        exact take_drop_split pre x post
      rw [← hrr]
      exact lookupMethod_setResults c typeName fd _ hl

/-- Witness of C9: removing `é` from `id, "\xc3\xa9", "é"` deletes the first
of the two declarations named `é`, the one written with byte escapes, and keeps
the later one. -/
theorem C9_remove_first_match_witness :
    ((userContext [.CompositeLit entFieldSlice
        [fieldCall "Int" "id", fieldCall "String" "\\xc3\\xa9", fieldCall "Bool" "é"]]).RemoveField
      asciiTable "User" "é").2
      = userContext [.CompositeLit entFieldSlice
          [fieldCall "Int" "id", fieldCall "Bool" "é"]] ∧
    ∃ pre x post,
      [fieldCall "Int" "id", fieldCall "String" "\\xc3\\xa9", fieldCall "Bool" "é"]
        = pre ++ x :: post ∧
      itemName x = .ok (goString "é") ∧
      (∀ e ∈ pre, ∃ n, itemName e = .ok n ∧ n ≠ goString "é") ∧
      ((userContext [.CompositeLit entFieldSlice
          [fieldCall "Int" "id", fieldCall "String" "\\xc3\\xa9", fieldCall "Bool" "é"]]).RemoveField
        asciiTable "User" "é").2.lookupMethod "User" "Fields"
        = .ok { userFields [.CompositeLit entFieldSlice
            [fieldCall "Int" "id", fieldCall "String" "\\xc3\\xa9", fieldCall "Bool" "é"]] with
          body := some [.ReturnStmt (.CompositeLit entFieldSlice (pre ++ post) :: [])] } :=
  ⟨by decide, C9_remove_first_match asciiTable
    (userContext [.CompositeLit entFieldSlice
      [fieldCall "Int" "id", fieldCall "String" "\\xc3\\xa9", fieldCall "Bool" "é"]]) "User" "é"
    (userFields [.CompositeLit entFieldSlice
      [fieldCall "Int" "id", fieldCall "String" "\\xc3\\xa9", fieldCall "Bool" "é"]]) entFieldSlice
    [fieldCall "Int" "id", fieldCall "String" "\\xc3\\xa9", fieldCall "Bool" "é"] []
    (by decide) (by decide) (by decide)⟩

/-- C10: when the `Fields` method returns a list literal `L` and `Field`
accepts the descriptor, `AppendField` yields the list `L` followed by the
newly synthesized call as last element, all prior elements and their order
preserved; consequently two successive appends of `d1` then `d2` leave
`Field(d1)` immediately before `Field(d2)` at the end of the list. -/
theorem C10_append_at_end (tbl : Char → Bool) (c : Context) (typeName : String)
    (fd : FuncDecl) (d1 d2 : Descriptor) (f1 f2 ty : Expr) (L more : List Expr)
    (hl : c.lookupMethod typeName "Fields" = .ok fd)
    (hb : fd.body = some [.ReturnStmt (.CompositeLit ty L :: more)])
    (hf1 : Field tbl d1 = .ok f1) (hf2 : Field tbl d2 = .ok f2) :
    (c.AppendField tbl typeName d1).1 = .ok () ∧
    (c.AppendField tbl typeName d1).2.lookupMethod typeName "Fields"
      = .ok { fd with body := some [.ReturnStmt (.CompositeLit ty (L ++ [f1]) :: more)] } ∧
    ((c.AppendField tbl typeName d1).2.AppendField tbl typeName d2).1 = .ok () ∧
    ((c.AppendField tbl typeName d1).2.AppendField tbl typeName d2).2.lookupMethod
        typeName "Fields"
      = .ok { fd with body := some [.ReturnStmt (.CompositeLit ty (L ++ [f1, f2]) :: more)] } := by
  have hr := fieldsReturnStmt_of_lookup c typeName fd _ hl hb
  rw [AppendField_list tbl c typeName d1 f1 ty L more hr hf1]
  have hl1 := lookupMethod_setResults c typeName fd (.CompositeLit ty (L ++ [f1]) :: more) hl
  have hr1 := fieldsReturnStmt_of_lookup _ typeName _ _ hl1 rfl
  rw [AppendField_list tbl _ typeName d2 f2 ty (L ++ [f1]) more hr1 hf2]
  have he : L ++ [f1] ++ [f2] = L ++ [f1, f2] := by simp
  rw [he]
  have hl2 := lookupMethod_setResults _ typeName _
    (.CompositeLit ty (L ++ [f1, f2]) :: more) hl1
  exact ⟨rfl, hl1, rfl, hl2⟩

/-- Witness of C10: appending `x` and then `age` to a `User` type that declares
`field.Int("id")`. -/
theorem C10_append_at_end_witness :
    (((userContext [.CompositeLit entFieldSlice [fieldCall "Int" "id"]]).AppendField
        asciiTable "User" stringX).2.AppendField asciiTable "User" intAge).2.lookupMethod
        "User" "Fields"
      = .ok (userFields [.CompositeLit entFieldSlice [fieldCall "Int" "id",
          fieldCall "String" "x",
          chain (fieldCall "Int" "age")
            [("Optional", []), ("Comment", [.BasicLit .STRING "\"years\""])]]]) :=
  (C10_append_at_end asciiTable
    (userContext [.CompositeLit entFieldSlice [fieldCall "Int" "id"]]) "User"
    (userFields [.CompositeLit entFieldSlice [fieldCall "Int" "id"]]) stringX intAge
    (fieldCall "String" "x")
    (chain (fieldCall "Int" "age")
      [("Optional", []), ("Comment", [.BasicLit .STRING "\"years\""])])
    entFieldSlice [fieldCall "Int" "id"] []
    (by decide) (by decide) (by decide) (by decide)).2.2.2

/-! ## Failing calls leave the tree alone -/

theorem AppendField_error_unchanged (tbl : Char → Bool) (c : Context) (t : String)
    (d : Descriptor) (e : Failure) (h : (c.AppendField tbl t d).1 = .error e) :
    (c.AppendField tbl t d).2 = c := by
  unfold Context.AppendField at h ⊢
  cases hr : c.fieldsReturnStmt t with
  | error err => rfl
  | ok results =>
    rw [hr] at h
    simp only at h ⊢
    cases hf : Field tbl d with
    | error err => rfl
    | ok newField =>
      rw [hf] at h
      simp only at h ⊢
      cases results with
      | nil => rfl
      | cons returned more =>
        cases returned with
        | Ident name =>
          simp only at h ⊢
          by_cases hn : name = "nil"
          · rw [if_pos hn] at h; simp at h
          · rw [if_neg hn]
        | CompositeLit ty elts => simp at h
        | _ => rfl

theorem RemoveField_error_unchanged (tbl : Char → Bool) (c : Context) (t n : String)
    (e : Failure) (h : (c.RemoveField tbl t n).1 = .error e) :
    (c.RemoveField tbl t n).2 = c := by
  unfold Context.RemoveField at h ⊢
  cases hr : c.fieldsReturnStmt t with
  | error err => rfl
  | ok results =>
    rw [hr] at h
    simp only at h ⊢
    cases results with
    | nil => rfl
    | cons returned more =>
      cases returned with
      | CompositeLit ty elts =>
        simp only at h ⊢
        cases hloop : removeLoop n elts 0 elts with
        | error err => rfl
        | ok res =>
          cases res with
          | none => rfl
          | some elts2 => rw [hloop] at h; simp at h
      | _ => rfl

/-! ## The claims on failures -/

/-- C11: atomicity of edits. If `AppendField` or `RemoveField` ends with an
error, whatever it is (method not resolved, malformed body, synthesis failure,
unexpected return shape, unrecognized element, field not found), the context
after the call is the context before it: the return statement of the `Fields`
method and its list literal are exactly as they were. -/
theorem C11_failed_edit_unchanged (tbl : Char → Bool) (c : Context)
    (typeName fieldName : String) (d : Descriptor) :
    (∀ e, (c.AppendField tbl typeName d).1 = .error e →
      (c.AppendField tbl typeName d).2 = c ∧
      (c.AppendField tbl typeName d).2.fieldsReturnStmt typeName
        = c.fieldsReturnStmt typeName) ∧
    (∀ e, (c.RemoveField tbl typeName fieldName).1 = .error e →
      (c.RemoveField tbl typeName fieldName).2 = c ∧
      (c.RemoveField tbl typeName fieldName).2.fieldsReturnStmt typeName
        = c.fieldsReturnStmt typeName) := by
  constructor
  · intro e h
    have := AppendField_error_unchanged tbl c typeName d e h
    exact ⟨this, by rw [this]⟩
  · intro e h
    have := RemoveField_error_unchanged tbl c typeName fieldName e h
    exact ⟨this, by rw [this]⟩

/-- Witness of C11: on a `User` type that declares `field.Int("id")`, appending
a JSON descriptor fails in the synthesis and removing `name` finds no field;
both leave the context as it was. -/
theorem C11_failed_edit_unchanged_witness :
    ((userContext [.CompositeLit entFieldSlice [fieldCall "Int" "id"]]).AppendField
        asciiTable "User" jsonValidated).1
      = .error (.errorf "schemast: unsupported type TypeJSON") ∧
    ((userContext [.CompositeLit entFieldSlice [fieldCall "Int" "id"]]).AppendField
        asciiTable "User" jsonValidated).2
      = userContext [.CompositeLit entFieldSlice [fieldCall "Int" "id"]] ∧
    ((userContext [.CompositeLit entFieldSlice [fieldCall "Int" "id"]]).RemoveField
        asciiTable "User" "name").2
      = userContext [.CompositeLit entFieldSlice [fieldCall "Int" "id"]] :=
  ⟨by decide,
   ((C11_failed_edit_unchanged asciiTable
      (userContext [.CompositeLit entFieldSlice [fieldCall "Int" "id"]]) "User" "name"
      jsonValidated).1 (.errorf "schemast: unsupported type TypeJSON") (by decide)).1,
   ((C11_failed_edit_unchanged asciiTable
      (userContext [.CompositeLit entFieldSlice [fieldCall "Int" "id"]]) "User" "name"
      jsonValidated).2
      (.errorf "schemast: could not find field \"name\" in type \"User\"") (by decide)).1⟩

/-- C12, the code at the failing inputs: the receiver test of line 225 only
fires when the receiver is an identifier. For `pkg.sub.String("x")`, whose
innermost receiver is the selector `pkg.sub`, and for `(other).String("x")`,
whose receiver is parenthesised, `extractFieldName` returns the name `x` and
no error; the identifier `other` alone is refused. In general a receiver that
is neither a call nor an identifier is never looked at: the result is the one
of reading the name argument. -/
theorem C12_receiver_not_identifier :
    extractFieldName (.SelectorExpr (.SelectorExpr (.Ident "pkg") "sub") "String")
        [.BasicLit .STRING "\"x\""] = .ok (goString "x") ∧
    extractFieldName (.SelectorExpr (.ParenExpr (.Ident "other")) "String")
        [.BasicLit .STRING "\"x\""] = .ok (goString "x") ∧
    extractFieldName (.SelectorExpr (.Ident "other") "String")
        [.BasicLit .STRING "\"x\""]
      = .error (.errorf
          "schemast: expected field AST to be of form field.<Type>(\"name\")") ∧
    (∀ (x : Expr) (sel : String) (args : List Expr),
      (∀ fn a, x ≠ .CallExpr fn a) → (∀ name, x ≠ .Ident name) →
      extractFieldName (.SelectorExpr x sel) args = nameArg args) := by
  refine ⟨by decide, by decide, by decide, ?_⟩
  intro x sel args hcall hident
  cases x with
  | CallExpr fn a => exact absurd rfl (hcall fn a)
  | Ident name => exact absurd rfl (hident name)
  | _ => rw [extractFieldName] <;> first | exact hcall | exact hident

/-- C13, the code at the failing inputs: the test of line 232 is
`!ok && name.Kind == token.STRING`. For `field.String(name)`, whose first
argument is an identifier, `name` is nil and the call panics; for
`field.String('a')`, a character literal, the test is skipped and the name `a`
is returned. An empty argument list is refused, and the integer literal `12`
is refused only because `strconv.Unquote` rejects it. In general every first
argument that is no literal panics, and for a literal the result is the one of
`strconv.Unquote` on its text, whatever its kind. -/
theorem C13_name_argument_not_checked :
    extractFieldName (.SelectorExpr (.Ident "field") "String") [.Ident "name"]
      = .error (.panic "invalid memory address or nil pointer dereference") ∧
    extractFieldName (.SelectorExpr (.Ident "field") "String") [.BasicLit .CHAR "'a'"]
      = .ok (goString "a") ∧
    extractFieldName (.SelectorExpr (.Ident "field") "String") []
      = .error (.errorf "schemast: expected field constructor to have at least name arg") ∧
    extractFieldName (.SelectorExpr (.Ident "field") "String") [.BasicLit .INT "12"]
      = .error .errSyntax ∧
    (∀ (ctor : String) (arg : Expr) (rest : List Expr), (∀ kind value, arg ≠ .BasicLit kind value) →
      extractFieldName (.SelectorExpr (.Ident "field") ctor) (arg :: rest)
        = .error (.panic "invalid memory address or nil pointer dereference")) ∧
    (∀ (ctor : String) (kind : Token) (value : String) (rest : List Expr),
      extractFieldName (.SelectorExpr (.Ident "field") ctor) (.BasicLit kind value :: rest)
        = strconv.Unquote value) := by
  refine ⟨by decide, by decide, by decide, by decide, ?_, ?_⟩
  · intro ctor arg rest harg
    cases arg with
    | BasicLit kind value => exact absurd rfl (harg kind value)
    | _ => simp [extractFieldName, nameArg]
  · intro ctor kind value rest
    simp [extractFieldName, nameArg]

theorem fromSimpleType_not_errorf (tbl : Char → Bool) (d : Descriptor) (msg : String) :
    fromSimpleType tbl d ≠ .error (.errorf msg) := by
  rw [fromSimpleType_eq]
  by_cases h : rejectedFields d = []
  · rw [if_pos h]; simp
  · rw [if_neg h]; simp

theorem fromEnumType_not_errorf (tbl : Char → Bool) (d : Descriptor) (msg : String) :
    fromEnumType tbl d ≠ .error (.errorf msg) := by
  unfold fromEnumType
  cases hs : fromSimpleType tbl d with
  | error e =>
    intro h
    simp only [Except.error.injEq] at h
    exact fromSimpleType_not_errorf tbl d msg (by rw [hs, h])
  | ok call => simp

theorem Field_unsupported (tbl : Char → Bool) (d : Descriptor)
    (hs : isSimpleType d.Info.type = false) (he : d.Info.type ≠ .TypeEnum) :
    Field tbl d = .error (.errorf ("schemast: unsupported type " ++ d.Info.type.ConstName)) := by
  simp only [isSimpleType] at hs
  simp [Field, hs, he]

/-- C15: `Field` returns the unsupported-type error (and no tree) if and only
if the descriptor's type is neither numeric, string, boolean nor enum; numeric,
string and boolean descriptors get exactly the result of the plain-scalar path
`fromSimpleType`, enum descriptors exactly the result of the enum path
`fromEnumType`. -/
theorem C15_field_dispatch (tbl : Char → Bool) (d : Descriptor) :
    (Field tbl d = .error (.errorf ("schemast: unsupported type " ++ d.Info.type.ConstName))
      ↔ (isSimpleType d.Info.type = false ∧ d.Info.type ≠ .TypeEnum)) ∧
    (isSimpleType d.Info.type = true → Field tbl d = fromSimpleType tbl d) ∧
    (d.Info.type = .TypeEnum → Field tbl d = fromEnumType tbl d) := by
  refine ⟨⟨?_, fun h => Field_unsupported tbl d h.1 h.2⟩, Field_simple tbl d, Field_enum tbl d⟩
  intro h
  by_cases hs : isSimpleType d.Info.type = true
  · rw [Field_simple tbl d hs] at h
    exact absurd h (fromSimpleType_not_errorf tbl d _)
  · by_cases he : d.Info.type = .TypeEnum
    · rw [Field_enum tbl d he] at h
      exact absurd h (fromEnumType_not_errorf tbl d _)
    · exact ⟨by simpa using hs, he⟩

theorem fieldsReturnStmt_malformed (c : Context) (t : String) (fd : FuncDecl)
    (stmts : List Stmt)
    (hl : c.lookupMethod t "Fields" = .ok fd)
    (hb : fd.body = some stmts)
    (hs : ∀ results, stmts ≠ [.ReturnStmt results]) :
    c.fieldsReturnStmt t
      = .error (.errorf (if stmts.length ≠ 1
          then "schmeast: Fields() func body must have a single element"
          else "schmeast: Fields() func body must contain a return statement")) := by
  unfold Context.fieldsReturnStmt
  rw [hl]
  simp only [hb]
  by_cases hlen : stmts.length ≠ 1
  · rw [if_pos hlen, if_pos hlen]
  · rw [if_neg hlen, if_neg hlen]
    cases stmts with
    | nil => rfl
    | cons s rest =>
      cases s with
      | ReturnStmt results =>
        have hrest : rest = [] := by
          cases rest with
          | nil => rfl
          | cons _ _ => simp at hlen
        subst hrest
        exact absurd rfl (hs results)
      | ExprStmt x => rfl

theorem fieldsReturnStmt_without_body (c : Context) (t : String) (fd : FuncDecl)
    (hl : c.lookupMethod t "Fields" = .ok fd) (hb : fd.body = none) :
    c.fieldsReturnStmt t
      = .error (.panic "invalid memory address or nil pointer dereference") := by
  unfold Context.fieldsReturnStmt
  rw [hl]
  simp only [hb]

set_option maxRecDepth 8192

/-- C16, the code at the failing input: the `Fields` method of `User` is
declared without a body, `func (User) Fields() []ent.Field`, which the parser
reads without error (`Body` is nil). Line 194 evaluates `len(fd.Body.List)` with
no nil check: `AppendField` and `RemoveField` both panic instead of returning
an error, and so it is for every type whose `Fields` method has no body. For
every body that is present and is not exactly one return statement, both
return the error of `fieldsReturnStmt` before doing anything else, whatever the
descriptor or the field name, and leave the context unchanged. -/
theorem C16_missing_body_panics :
    parser.ParseFile asciiUnicode "package schema\nfunc (User) Fields() []ent.Field\n"
      = some userWithoutBody.SchemaPackage ∧
    userWithoutBody.AppendField asciiTable "User" stringX
      = (.error (.panic "invalid memory address or nil pointer dereference"),
         userWithoutBody) ∧
    userWithoutBody.RemoveField asciiTable "User" "x"
      = (.error (.panic "invalid memory address or nil pointer dereference"),
         userWithoutBody) ∧
    (∀ (tbl : Char → Bool) (c : Context) (typeName : String) (fd : FuncDecl),
      c.lookupMethod typeName "Fields" = .ok fd → fd.body = none →
      (∀ d, c.AppendField tbl typeName d
          = (.error (.panic "invalid memory address or nil pointer dereference"), c)) ∧
      (∀ fieldName, c.RemoveField tbl typeName fieldName
          = (.error (.panic "invalid memory address or nil pointer dereference"), c))) ∧
    (∀ (tbl : Char → Bool) (c : Context) (typeName : String) (fd : FuncDecl)
        (stmts : List Stmt),
      c.lookupMethod typeName "Fields" = .ok fd → fd.body = some stmts →
      (∀ results, stmts ≠ [.ReturnStmt results]) →
      (∀ d, c.AppendField tbl typeName d
          = (.error (.errorf (if stmts.length ≠ 1
              then "schmeast: Fields() func body must have a single element"
              else "schmeast: Fields() func body must contain a return statement")), c)) ∧
      (∀ fieldName, c.RemoveField tbl typeName fieldName
          = (.error (.errorf (if stmts.length ≠ 1
              then "schmeast: Fields() func body must have a single element"
              else "schmeast: Fields() func body must contain a return statement")), c))) := by
  refine ⟨by decide, by decide, by decide, ?_, ?_⟩
  · intro tbl c typeName fd hl hb
    have hr := fieldsReturnStmt_without_body c typeName fd hl hb
    constructor
    · intro d
      simp only [Context.AppendField, hr]
    · intro fieldName
      simp only [Context.RemoveField, hr]
  · intro tbl c typeName fd stmts hl hb hs
    have hr := fieldsReturnStmt_malformed c typeName fd stmts hl hb hs
    constructor
    · intro d
      simp only [Context.AppendField, hr]
    · intro fieldName
      simp only [Context.RemoveField, hr]

/-- C17: when the single return statement of the `Fields` method returns a
value that is neither the identifier `nil` nor a composite literal,
`AppendField` returns an unexpected-return-shape error for every descriptor
that `Field` accepts; when the value is not a composite literal (`nil`
included), `RemoveField` returns an error. Neither changes the context. -/
theorem C17_unexpected_return_shape (tbl : Char → Bool) (c : Context)
    (typeName fieldName : String) (fd : FuncDecl) (r : Expr) (more : List Expr)
    (hl : c.lookupMethod typeName "Fields" = .ok fd)
    (hb : fd.body = some [.ReturnStmt (r :: more)])
    (hr : ∀ ty elts, r ≠ .CompositeLit ty elts) :
    (r ≠ .Ident "nil" → ∀ d call, Field tbl d = .ok call →
      c.AppendField tbl typeName d
        = (.error (.errorf (match r with
            | .Ident name => "schemast: unexpected ident. expected nil got " ++ name
            | _ => "schemast: unexpected AST component type " ++ r.goType)), c)) ∧
    c.RemoveField tbl typeName fieldName
      = (.error (.errorf ("schemast: unexpected AST component type " ++ r.goType)), c) := by
  have hres := fieldsReturnStmt_of_lookup c typeName fd _ hl hb
  constructor
  · intro hnil d call hf
    simp only [Context.AppendField, hres, hf]
    cases r with
    | Ident name =>
      have hn : name ≠ "nil" := fun h => hnil (by rw [h])
      simp only [if_neg hn]
    | CompositeLit ty elts => exact absurd rfl (hr ty elts)
    | _ => rfl
  · simp only [Context.RemoveField, hres]

/-- Witness of C17: the `Fields` method of `User` returns the identifier
`fields`. -/
theorem C17_unexpected_return_shape_witness :
    (userContext [.Ident "fields"]).AppendField asciiTable "User" stringX
      = (.error (.errorf "schemast: unexpected ident. expected nil got fields"),
         userContext [.Ident "fields"]) ∧
    (userContext [.Ident "fields"]).RemoveField asciiTable "User" "x"
      = (.error (.errorf "schemast: unexpected AST component type *ast.Ident"),
         userContext [.Ident "fields"]) :=
  have h := C17_unexpected_return_shape asciiTable (userContext [.Ident "fields"]) "User" "x"
    (userFields [.Ident "fields"]) (.Ident "fields") [] (by decide) (by decide)
    (by intro ty elts h; cases h)
  ⟨h.1 (by decide) stringX (fieldCall "String" "x") (by decide), h.2⟩

/-- C20, the code at the failing input: the `Fields` method of `User` is the
bare `return` of a method with a named result. `fieldsReturnStmt` accepts the
body, and `stmt.Results[0]` is out of range: `AppendField` (with a descriptor
that `Field` accepts) and `RemoveField` both panic; so it is for every type
whose `Fields` method is a bare `return`. -/
theorem C20_bare_return_panics :
    (userContext []).fieldsReturnStmt "User" = .ok [] ∧
    (userContext []).AppendField asciiTable "User" stringX
      = (.error (.panic "index out of range [0] with length 0"), userContext []) ∧
    (userContext []).RemoveField asciiTable "User" "x"
      = (.error (.panic "index out of range [0] with length 0"), userContext []) ∧
    (∀ (tbl : Char → Bool) (c : Context) (typeName : String) (fd : FuncDecl),
      c.lookupMethod typeName "Fields" = .ok fd → fd.body = some [.ReturnStmt []] →
      (∀ d call, Field tbl d = .ok call →
        c.AppendField tbl typeName d
          = (.error (.panic "index out of range [0] with length 0"), c)) ∧
      (∀ fieldName, c.RemoveField tbl typeName fieldName
          = (.error (.panic "index out of range [0] with length 0"), c))) := by
  refine ⟨by decide, by decide, by decide, ?_⟩
  intro tbl c typeName fd hl hb
  have hr := fieldsReturnStmt_of_lookup c typeName fd [] hl hb
  constructor
  · intro d call hf
    simp only [Context.AppendField, hr, hf]
  · intro fieldName
    simp only [Context.RemoveField, hr]

/-! ## The invariant of the declaration list -/

/-- C19: the declaration-list invariant is preserved by both edits. If every
element of the list literal returned by the `Fields` method is a call
expression on which `extractFieldName` succeeds (`itemName` gives a name), then
after a successful `AppendField` and after a successful `RemoveField` every
element of the resulting list is again such a call; in particular
`extractFieldName` succeeds on every tree that `Field` returns, with the
descriptor's name. -/
theorem C19_declaration_list_invariant (tbl : Char → Bool) (c : Context)
    (typeName fieldName : String) (fd : FuncDecl) (d : Descriptor) (ty : Expr)
    (L more : List Expr)
    (hl : c.lookupMethod typeName "Fields" = .ok fd)
    (hb : fd.body = some [.ReturnStmt (.CompositeLit ty L :: more)])
    (hL : ∀ e ∈ L, ∃ n, itemName e = .ok n) :
    ((c.AppendField tbl typeName d).1 = .ok () →
      ∃ L2, (c.AppendField tbl typeName d).2.lookupMethod typeName "Fields"
          = .ok { fd with body := some [.ReturnStmt (.CompositeLit ty L2 :: more)] } ∧
        ∀ e ∈ L2, ∃ n, itemName e = .ok n) ∧
    ((c.RemoveField tbl typeName fieldName).1 = .ok () →
      ∃ L2, (c.RemoveField tbl typeName fieldName).2.lookupMethod typeName "Fields"
          = .ok { fd with body := some [.ReturnStmt (.CompositeLit ty L2 :: more)] } ∧
        ∀ e ∈ L2, ∃ n, itemName e = .ok n) ∧
    (∀ call, Field tbl d = .ok call →
      ∃ fn args, call = .CallExpr fn args ∧ extractFieldName fn args = .ok (goString d.Name)) := by
  have hr := fieldsReturnStmt_of_lookup c typeName fd _ hl hb
  refine ⟨?_, ?_, ?_⟩
  · intro hok
    cases hf : Field tbl d with
    | error err =>
      simp [Context.AppendField, hr, hf] at hok
    | ok call =>
      rw [AppendField_list tbl c typeName d call ty L more hr hf]
      refine ⟨L ++ [call], lookupMethod_setResults c typeName fd _ hl, ?_⟩
      intro e he
      rcases List.mem_append.mp he with he | he
      · exact hL e he
      · rw [List.mem_singleton] at he
        subst he
        exact ⟨goString d.Name, (Field_itemName tbl d e hf).2⟩
  · intro hok
    simp only [Context.RemoveField, hr] at hok ⊢
    cases hloop : removeLoop fieldName L 0 L with
    | error e => rw [hloop] at hok; simp at hok
    | ok res =>
      cases res with
      | none => rw [hloop] at hok; simp at hok
      | some r =>
        obtain ⟨pre, x, post, hsplit, _, _, hres⟩ := removeLoop_some fieldName L L 0 r hloop
        have hrr : r = pre ++ post := by
          rw [hres, hsplit]
          exact take_drop_split pre x post
        refine ⟨r, lookupMethod_setResults c typeName fd _ hl, ?_⟩
        intro e he
        rw [hrr] at he
        apply hL e
        rw [hsplit]
        rcases List.mem_append.mp he with he | he
        · exact List.mem_append_left _ he
        · exact List.mem_append_right _ (List.mem_cons_of_mem _ he)
  · intro call hf
    obtain ⟨⟨fn, args, rfl⟩, hn⟩ := Field_itemName tbl d call hf
    exact ⟨fn, args, rfl, hn⟩

/-- Witness of C19: `User` declares `id` and `field.String("\xc3\xa9")`, a name
written with byte escapes; after appending `age` and after removing `é` every
element still has a name. -/
theorem C19_declaration_list_invariant_witness :
    (∀ e ∈ [fieldCall "Int" "id", fieldCall "String" "\\xc3\\xa9"], ∃ n, itemName e = .ok n) ∧
    ((userContext [.CompositeLit entFieldSlice
        [fieldCall "Int" "id", fieldCall "String" "\\xc3\\xa9"]]).AppendField
      asciiTable "User" intAge).1 = .ok () ∧
    ((userContext [.CompositeLit entFieldSlice
        [fieldCall "Int" "id", fieldCall "String" "\\xc3\\xa9"]]).RemoveField
      asciiTable "User" "é").1 = .ok () ∧
    ∃ L2, ((userContext [.CompositeLit entFieldSlice
        [fieldCall "Int" "id", fieldCall "String" "\\xc3\\xa9"]]).RemoveField
          asciiTable "User" "é").2.lookupMethod "User" "Fields"
        = .ok { userFields [.CompositeLit entFieldSlice
            [fieldCall "Int" "id", fieldCall "String" "\\xc3\\xa9"]] with
          body := some [.ReturnStmt (.CompositeLit entFieldSlice L2 :: [])] } ∧
      ∀ e ∈ L2, ∃ n, itemName e = .ok n :=
  have hL : ∀ e ∈ [fieldCall "Int" "id", fieldCall "String" "\\xc3\\xa9"],
      ∃ n, itemName e = .ok n := by
    intro e he
    simp only [List.mem_cons, List.mem_singleton, List.not_mem_nil, or_false] at he
    rcases he with rfl | rfl
    · exact ⟨goString "id", by decide⟩
    · exact ⟨goString "é", by decide⟩
  ⟨hL, by decide, by decide,
   (C19_declaration_list_invariant asciiTable
      (userContext [.CompositeLit entFieldSlice
        [fieldCall "Int" "id", fieldCall "String" "\\xc3\\xa9"]]) "User" "é"
      (userFields [.CompositeLit entFieldSlice
        [fieldCall "Int" "id", fieldCall "String" "\\xc3\\xa9"]]) intAge entFieldSlice
      [fieldCall "Int" "id", fieldCall "String" "\\xc3\\xa9"] []
      (by decide) (by decide) hL).2.1 (by decide)⟩

/-! ## The type scaffolder -/

theorem mapLookup_mapAssign (m : List (String × List FuncDecl)) (k : String)
    (v : List FuncDecl) : mapLookup (mapAssign m k v) k = some v := by
  induction m with
  | nil => simp [mapAssign, mapLookup]
  | cons entry rest ih =>
    by_cases h : entry.1 = k
    · simp [mapAssign, mapLookup, h]
    · simp [mapAssign, mapLookup, h, ih]

theorem mapLookup_mapAssign_ne (m : List (String × List FuncDecl)) (k k2 : String)
    (v : List FuncDecl) (hk : k2 ≠ k) :
    mapLookup (mapAssign m k v) k2 = mapLookup m k2 := by
  induction m with
  | nil => simp [mapAssign, mapLookup, Ne.symm hk]
  | cons entry rest ih =>
    by_cases h : entry.1 = k
    · have h2 : entry.1 ≠ k2 := fun e => hk (by rw [← e, h])
      simp [mapAssign, mapLookup, h, h2, Ne.symm hk]
    · by_cases h3 : entry.1 = k2
      · rw [mapAssign, if_neg h, mapLookup, if_pos h3, mapLookup, if_pos h3]
      · rw [mapAssign, if_neg h, mapLookup, if_neg h3, ih, mapLookup, if_neg h3]

theorem mapAssign_keys (m : List (String × List FuncDecl)) (k : String)
    (v old : List FuncDecl) (h : mapLookup m k = some old) :
    (mapAssign m k v).map Prod.fst = m.map Prod.fst := by
  induction m with
  | nil => simp [mapLookup] at h
  | cons entry rest ih =>
    by_cases hk : entry.1 = k
    · simp [mapAssign, hk]
    · simp only [mapLookup, if_neg hk] at h
      simp [mapAssign, hk, ih h]

theorem find?_flatMap_mapAssign (p : FuncDecl → Bool) (m : List (String × List FuncDecl))
    (k : String) (v : List FuncDecl)
    (h : (m.flatMap fun entry => entry.2).find? p = none) :
    ((mapAssign m k v).flatMap fun entry => entry.2).find? p = v.find? p := by
  induction m with
  | nil => simp [mapAssign]
  | cons entry rest ih =>
    simp only [List.flatMap_cons, List.find?_append, Option.or_eq_none] at h
    by_cases hk : entry.1 = k
    · simp only [mapAssign, if_pos hk, List.flatMap_cons, List.find?_append, h.2]
      simp
    · simp only [mapAssign, if_neg hk, List.flatMap_cons, List.find?_append, h.1, ih h.2]
      simp

/-! ## Scanning and parsing the skeleton -/

theorem scanner.run_append (u : Unicode) (a b : List Char) (m : scanner.Mode) :
    scanner.run u m (a ++ b)
      = ((scanner.run u m a).1 ++ (scanner.run u (scanner.run u m a).2 b).1,
         (scanner.run u (scanner.run u m a).2 b).2) := by
  induction a generalizing m with
  | nil => simp [scanner.run]
  | cons ch rest ih =>
    rw [List.cons_append]
    simp only [scanner.run, ih, List.append_assoc]

theorem scanner.run_word (u : Unicode) (cs cur : List Char)
    (h : ∀ c ∈ cs, (scanner.isLetter u c || scanner.isDigit u c) = true) :
    scanner.run u (.word cur) cs = ([], .word (cur ++ cs)) := by
  induction cs generalizing cur with
  | nil => simp [scanner.run]
  | cons ch rest ih =>
    have hch := h ch (List.mem_cons_self _ _)
    have hrest := ih (cur ++ [ch]) (fun c hc => h c (List.mem_cons_of_mem _ hc))
    simp only [scanner.run, scanner.step, hch, if_true, hrest, List.append_assoc,
      List.singleton_append, List.nil_append]

theorem scanner.run_word_end (u : Unicode) (cur : List Char) (ch : Char) (rest : List Char)
    (hch : (scanner.isLetter u ch || scanner.isDigit u ch) = false) :
    scanner.run u (.word cur) (ch :: rest)
      = (scanner.Lookup ⟨cur⟩
          :: (scanner.run u (.start (scanner.insertSemi (scanner.Lookup ⟨cur⟩))) (ch :: rest)).1,
         (scanner.run u (.start (scanner.insertSemi (scanner.Lookup ⟨cur⟩))) (ch :: rest)).2) := by
  simp only [scanner.run, scanner.step, hch, Bool.false_eq_true, if_false, List.cons_append]

theorem scanner.stepStart_letter (u : Unicode) (semi : Bool) (ch : Char)
    (h : scanner.isLetter u ch = true) :
    scanner.stepStart u semi ch = ([], .word [ch]) := by
  have h65 : 65 ≤ ch.toNat := by
    simp only [scanner.isLetter, Bool.or_eq_true, Bool.and_eq_true, decide_eq_true_eq,
      beq_iff_eq] at h
    omega
  unfold scanner.stepStart
  rw [if_neg (by omega), if_neg (by omega), if_pos h]

theorem scanner.Lookup_ident (word name : String) (h : scanner.Lookup word = .IDENT name) :
    scanner.Lookup word = .IDENT word := by
  unfold scanner.Lookup at h ⊢
  split_ifs at h ⊢
  rfl

theorem isIdentifier_data (u : Unicode) (T : String) (hid : isIdentifier u T = true) :
    ∃ ch rest, T.data = ch :: rest ∧ scanner.isLetter u ch = true ∧
      (∀ c ∈ rest, (scanner.isLetter u c || scanner.isDigit u c) = true) ∧
      scanner.Lookup T = .IDENT T := by
  unfold isIdentifier at hid
  cases hd : T.data with
  | nil => rw [hd] at hid; simp at hid
  | cons ch rest =>
    rw [hd] at hid
    simp only [Bool.and_eq_true, List.all_eq_true] at hid
    refine ⟨ch, rest, rfl, hid.1.1, hid.1.2, ?_⟩
    cases hl : scanner.Lookup T with
    | IDENT name => rw [← hl]; exact scanner.Lookup_ident T name hl
    | _ => rw [hl] at hid; simp at hid

/-- Scanning an identifier that a character outside identifiers follows: the
scanner emits the identifier and goes on with that character. -/
theorem run_identifier (u : Unicode) (T : String) (hid : isIdentifier u T = true)
    (semi : Bool) (ch : Char) (rest : List Char)
    (hch : (scanner.isLetter u ch || scanner.isDigit u ch) = false) :
    scanner.run u (.start semi) (T.data ++ ch :: rest)
      = (.IDENT T :: (scanner.run u (.start true) (ch :: rest)).1,
         (scanner.run u (.start true) (ch :: rest)).2) := by
  obtain ⟨c0, cs, hd, h0, hcs, hl⟩ := isIdentifier_data u T hid
  have hT : (⟨c0 :: cs⟩ : String) = T := by rw [← hd]
  rw [hd, List.cons_append, scanner.run, scanner.step, scanner.stepStart_letter u semi c0 h0]
  simp only [List.nil_append]
  rw [scanner.run_append, scanner.run_word u cs [c0] hcs]
  simp only [List.nil_append, List.singleton_append]
  rw [scanner.run_word_end u (c0 :: cs) ch rest hch, hT, hl]
  rfl

theorem skeletonSource_data (T : String) :
    (skeletonSource T).data
      = "package schema\nimport \"entgo.io/ent\"\ntype ".data ++ (T.data ++
        (' ' :: ("struct \x7b\n\tent.Schema\n\x7d\nfunc (".data ++ (T.data ++
        (')' :: (" Fields() []ent.Field \x7b\n\treturn nil\n\x7d\nfunc (".data ++ (T.data ++
        (')' :: " Edges() []ent.Edge \x7b\n\treturn nil\n\x7d\n".data)))))))) := by
  simp only [skeletonSource, String.data_append, List.append_assoc]
  rfl

open scanner (Tok Mode)

theorem run_skeleton_package (u : Unicode) :
    scanner.run u (Mode.start false) "package schema\nimport \"entgo.io/ent\"\ntype ".data
      = ([Tok.PACKAGE, Tok.IDENT "schema", Tok.SEMICOLON, Tok.IMPORT, Tok.STRING "entgo.io/ent",
          Tok.SEMICOLON, Tok.TYPE],
         Mode.start false) := by
  rfl

theorem run_skeleton_struct (u : Unicode) :
    scanner.run u (Mode.start true) " struct \x7b\n\tent.Schema\n\x7d\nfunc (".data
      = ([Tok.STRUCT, Tok.LBRACE, Tok.IDENT "ent", Tok.PERIOD, Tok.IDENT "Schema",
          Tok.SEMICOLON, Tok.RBRACE, Tok.SEMICOLON, Tok.FUNC, Tok.LPAREN],
         Mode.start false) := by
  rfl

theorem run_skeleton_Fields (u : Unicode) :
    scanner.run u (Mode.start true)
        ") Fields() []ent.Field \x7b\n\treturn nil\n\x7d\nfunc (".data
      = ([Tok.RPAREN, Tok.IDENT "Fields", Tok.LPAREN, Tok.RPAREN, Tok.LBRACK, Tok.RBRACK,
          Tok.IDENT "ent", Tok.PERIOD, Tok.IDENT "Field", Tok.LBRACE, Tok.RETURN, Tok.IDENT
          "nil", Tok.SEMICOLON, Tok.RBRACE, Tok.SEMICOLON, Tok.FUNC, Tok.LPAREN],
         Mode.start false) := by
  rfl

theorem run_skeleton_Edges (u : Unicode) :
    scanner.run u (Mode.start true) ") Edges() []ent.Edge \x7b\n\treturn nil\n\x7d\n".data
      = ([Tok.RPAREN, Tok.IDENT "Edges", Tok.LPAREN, Tok.RPAREN, Tok.LBRACK, Tok.RBRACK,
          Tok.IDENT "ent", Tok.PERIOD, Tok.IDENT "Edge", Tok.LBRACE, Tok.RETURN, Tok.IDENT "nil",
          Tok.SEMICOLON, Tok.RBRACE, Tok.SEMICOLON],
         Mode.start false) := by
  rfl

theorem run_skeletonSource (u : Unicode) (T : String) (hid : isIdentifier u T = true) :
    scanner.run u (Mode.start false) (skeletonSource T).data
      = ([Tok.PACKAGE, Tok.IDENT "schema", Tok.SEMICOLON, Tok.IMPORT, Tok.STRING "entgo.io/ent",
          Tok.SEMICOLON, Tok.TYPE, Tok.IDENT T, Tok.STRUCT, Tok.LBRACE, Tok.IDENT "ent",
          Tok.PERIOD, Tok.IDENT "Schema", Tok.SEMICOLON, Tok.RBRACE, Tok.SEMICOLON, Tok.FUNC,
          Tok.LPAREN, Tok.IDENT T, Tok.RPAREN, Tok.IDENT "Fields", Tok.LPAREN, Tok.RPAREN,
          Tok.LBRACK, Tok.RBRACK, Tok.IDENT "ent", Tok.PERIOD, Tok.IDENT "Field", Tok.LBRACE,
          Tok.RETURN, Tok.IDENT "nil", Tok.SEMICOLON, Tok.RBRACE, Tok.SEMICOLON, Tok.FUNC,
          Tok.LPAREN, Tok.IDENT T, Tok.RPAREN, Tok.IDENT "Edges", Tok.LPAREN, Tok.RPAREN,
          Tok.LBRACK, Tok.RBRACK, Tok.IDENT "ent", Tok.PERIOD, Tok.IDENT "Edge", Tok.LBRACE,
          Tok.RETURN, Tok.IDENT "nil", Tok.SEMICOLON, Tok.RBRACE, Tok.SEMICOLON],
         Mode.start false) := by
  rw [skeletonSource_data, scanner.run_append, run_skeleton_package]
  simp only []
  rw [run_identifier u T hid false ' ' _ (by rfl)]
  rw [show (' ' :: ("struct \x7b\n\tent.Schema\n\x7d\nfunc (".data ++ (T.data ++
      (')' :: (" Fields() []ent.Field \x7b\n\treturn nil\n\x7d\nfunc (".data ++ (T.data ++
      (')' :: " Edges() []ent.Edge \x7b\n\treturn nil\n\x7d\n".data)))))))
      = " struct \x7b\n\tent.Schema\n\x7d\nfunc (".data ++ (T.data ++
      (')' :: (" Fields() []ent.Field \x7b\n\treturn nil\n\x7d\nfunc (".data ++ (T.data ++
      (')' :: " Edges() []ent.Edge \x7b\n\treturn nil\n\x7d\n".data))))) from rfl]
  rw [scanner.run_append, run_skeleton_struct]
  simp only []
  rw [run_identifier u T hid false ')' _ (by rfl)]
  rw [show (')' :: (" Fields() []ent.Field \x7b\n\treturn nil\n\x7d\nfunc (".data ++ (T.data ++
      (')' :: " Edges() []ent.Edge \x7b\n\treturn nil\n\x7d\n".data))))
      = ") Fields() []ent.Field \x7b\n\treturn nil\n\x7d\nfunc (".data ++ (T.data ++
      (')' :: " Edges() []ent.Edge \x7b\n\treturn nil\n\x7d\n".data)) from rfl]
  rw [scanner.run_append, run_skeleton_Fields]
  simp only []
  rw [run_identifier u T hid false ')' _ (by rfl)]
  rw [show (')' :: " Edges() []ent.Edge \x7b\n\treturn nil\n\x7d\n".data)
      = ") Edges() []ent.Edge \x7b\n\treturn nil\n\x7d\n".data from rfl, run_skeleton_Edges]
  rfl

/-- The tokens that the scanner makes of the skeleton of an identifier. -/
theorem Scan_skeletonSource (u : Unicode) (T : String) (hid : isIdentifier u T = true) :
    scanner.Scan u (skeletonSource T)
      = [Tok.PACKAGE, Tok.IDENT "schema", Tok.SEMICOLON, Tok.IMPORT, Tok.STRING "entgo.io/ent",
         Tok.SEMICOLON, Tok.TYPE, Tok.IDENT T, Tok.STRUCT, Tok.LBRACE, Tok.IDENT "ent",
         Tok.PERIOD, Tok.IDENT "Schema", Tok.SEMICOLON, Tok.RBRACE, Tok.SEMICOLON, Tok.FUNC,
         Tok.LPAREN, Tok.IDENT T, Tok.RPAREN, Tok.IDENT "Fields", Tok.LPAREN, Tok.RPAREN,
         Tok.LBRACK, Tok.RBRACK, Tok.IDENT "ent", Tok.PERIOD, Tok.IDENT "Field", Tok.LBRACE,
         Tok.RETURN, Tok.IDENT "nil", Tok.SEMICOLON, Tok.RBRACE, Tok.SEMICOLON, Tok.FUNC,
         Tok.LPAREN, Tok.IDENT T, Tok.RPAREN, Tok.IDENT "Edges", Tok.LPAREN, Tok.RPAREN,
         Tok.LBRACK, Tok.RBRACK, Tok.IDENT "ent", Tok.PERIOD, Tok.IDENT "Edge", Tok.LBRACE,
         Tok.RETURN, Tok.IDENT "nil", Tok.SEMICOLON, Tok.RBRACE, Tok.SEMICOLON] := by
  rw [scanner.Scan, run_skeletonSource u T hid]
  rfl

/-- The parser reads the skeleton of an identifier as the two methods `Fields`
and `Edges` of that type, both with the body `return nil`. -/
theorem ParseFile_skeletonSource (u : Unicode) (T : String) (hid : isIdentifier u T = true) :
    parser.ParseFile u (skeletonSource T) = some (skeletonDecls T) := by
  rw [parser.ParseFile, Scan_skeletonSource u T hid]
  rfl

theorem lookupMethod_AddType (ext : Collaborators) (c : Context) (t : String)
    (hparse : ext.ParseFile (ext.Underscore t ++ ".go") (skeletonSource t)
      = .ok (skeletonDecls t))
    (hnew : c.lookupMethod t "Fields" = .error (.methodNotFound t "Fields")) :
    c.AddType ext t = (.ok (), { c with newTypes := mapAssign c.newTypes t (skeletonDecls t) }) ∧
    (c.AddType ext t).2.lookupMethod t "Fields"
      = .ok ⟨t, "Fields", some [.ReturnStmt [.Ident "nil"]]⟩ := by
  have hadd : c.AddType ext t
      = (.ok (), { c with newTypes := mapAssign c.newTypes t (skeletonDecls t) }) := by
    simp only [Context.AddType, hparse]
  refine ⟨hadd, ?_⟩
  rw [hadd]
  unfold Context.lookupMethod at hnew ⊢
  cases hfind : c.allDecls.find? (FuncDecl.isMethod t "Fields") with
  | some fd => rw [hfind] at hnew; simp at hnew
  | none =>
    simp only [Context.allDecls, List.find?_append, Option.or_eq_none] at hfind
    simp only [Context.allDecls, List.find?_append, hfind.1,
      find?_flatMap_mapAssign _ _ _ _ hfind.2]
    simp [skeletonDecls, FuncDecl.isMethod]

/-- Counterexample to C14 as stated: `Foo` is registered as a new type whose
`Fields` method already declares `field.String("x")`. `AddType("Foo")` makes no
collision check: it returns no error and stores the freshly parsed skeleton
under `Foo`, so the earlier registration, with its field, is gone. -/
theorem C14_addType_collision_counterexample :
    mapLookup fooRegistered.newTypes "Foo"
      = some [⟨"Foo", "Fields",
          some [.ReturnStmt [.CompositeLit entFieldSlice [fieldCall "String" "x"]]]⟩,
        ⟨"Foo", "Edges", some [.ReturnStmt [.Ident "nil"]]⟩] ∧
    (fooRegistered.AddType fooCollaborators "Foo").1 = .ok () ∧
    mapLookup (fooRegistered.AddType fooCollaborators "Foo").2.newTypes "Foo"
      = some (skeletonDecls "Foo") ∧
    (fooRegistered.AddType fooCollaborators "Foo").2.lookupMethod "Foo" "Fields"
      = .ok ⟨"Foo", "Fields", some [.ReturnStmt [.Ident "nil"]]⟩ ∧
    (fooRegistered.AddType fooCollaborators "Foo").2 ≠ fooRegistered := by
  decide

/-- C14, amended: for every context in which `typeName` is already registered
as a newly scaffolded type, `AddType(typeName)` makes no collision check. If the
skeleton parses, it returns no error and replaces the existing registration by
the parsed skeleton, every other registration and the package staying as they
are; if the skeleton does not parse, it returns the parse error and leaves the
existing registration unchanged. -/
theorem C14_addType_replaces_registration (ext : Collaborators) (c : Context)
    (typeName : String) (old : List FuncDecl)
    (hreg : mapLookup c.newTypes typeName = some old) :
    (∀ f, ext.ParseFile (ext.Underscore typeName ++ ".go") (skeletonSource typeName) = .ok f →
      (c.AddType ext typeName).1 = .ok () ∧
      mapLookup (c.AddType ext typeName).2.newTypes typeName = some f ∧
      (∀ k, k ≠ typeName →
        mapLookup (c.AddType ext typeName).2.newTypes k = mapLookup c.newTypes k) ∧
      (c.AddType ext typeName).2.newTypes.map Prod.fst = c.newTypes.map Prod.fst ∧
      (c.AddType ext typeName).2.SchemaPackage = c.SchemaPackage) ∧
    (∀ e, ext.ParseFile (ext.Underscore typeName ++ ".go") (skeletonSource typeName)
        = .error e →
      c.AddType ext typeName = (.error e, c) ∧
      mapLookup (c.AddType ext typeName).2.newTypes typeName = some old) := by
  constructor
  · intro f hf
    have hadd : c.AddType ext typeName
        = (.ok (), { c with newTypes := mapAssign c.newTypes typeName f }) := by
      simp only [Context.AddType, hf]
    rw [hadd]
    exact ⟨rfl, mapLookup_mapAssign _ _ _,
      fun k hk => mapLookup_mapAssign_ne _ _ _ _ hk,
      mapAssign_keys _ _ _ old hreg, rfl⟩
  · intro e he
    have hadd : c.AddType ext typeName = (.error e, c) := by
      simp only [Context.AddType, he]
    rw [hadd]
    exact ⟨rfl, hreg⟩

/-- Witness of C14 (amended): `AddType("Foo")` on the context in which `Foo` is
registered with a field. -/
theorem C14_addType_replaces_registration_witness :
    (fooRegistered.AddType fooCollaborators "Foo").1 = .ok () ∧
    mapLookup (fooRegistered.AddType fooCollaborators "Foo").2.newTypes "Foo"
      = some (skeletonDecls "Foo") ∧
    (fooRegistered.AddType fooCollaborators "Foo").2.newTypes.map Prod.fst = ["Foo"] :=
  have h := (C14_addType_replaces_registration fooCollaborators fooRegistered "Foo"
    [⟨"Foo", "Fields", some [.ReturnStmt [.CompositeLit entFieldSlice [fieldCall "String" "x"]]]⟩,
     ⟨"Foo", "Edges", some [.ReturnStmt [.Ident "nil"]]⟩] (by decide)).1
    (skeletonDecls "Foo") (by decide)
  ⟨h.1, h.2.1, h.2.2.2.1⟩

/-- C18: for every well-formed identifier `T` for which the context resolves
no `Fields` method yet, and a parser that reads the texts of the fragment as
`go/parser` does, `AddType(T)` succeeds, the `Fields` method then resolved for
`T` has the body `return nil`, read by the parser from the text that `AddType`
formats, and a subsequent `AppendField(T, d)` with a descriptor that `Field`
accepts succeeds and turns that return value into the one-element list
`[]ent.Field` holding `Field(d)`. -/
theorem C18_addType_then_append (tbl : Char → Bool) (u : Unicode) (ext : Collaborators)
    (c : Context) (T : String) (d : Descriptor) (call : Expr)
    (hext : ∀ fn src decls, parser.ParseFile u src = some decls →
      ext.ParseFile fn src = .ok decls)
    (hid : isIdentifier u T = true)
    (hnew : c.lookupMethod T "Fields" = .error (.methodNotFound T "Fields"))
    (hf : Field tbl d = .ok call) :
    parser.ParseFile u (skeletonSource T)
      = some [⟨T, "Fields", some [.ReturnStmt [.Ident "nil"]]⟩,
              ⟨T, "Edges", some [.ReturnStmt [.Ident "nil"]]⟩] ∧
    (c.AddType ext T).1 = .ok () ∧
    (c.AddType ext T).2.lookupMethod T "Fields"
      = .ok ⟨T, "Fields", some [.ReturnStmt [.Ident "nil"]]⟩ ∧
    ((c.AddType ext T).2.AppendField tbl T d).1 = .ok () ∧
    ((c.AddType ext T).2.AppendField tbl T d).2.lookupMethod T "Fields"
      = .ok ⟨T, "Fields", some [.ReturnStmt [.CompositeLit
          (.ArrayType (.SelectorExpr (.Ident "ent") "Field")) [call]]]⟩ := by
  have hparse := hext (ext.Underscore T ++ ".go") (skeletonSource T) (skeletonDecls T)
    (ParseFile_skeletonSource u T hid)
  obtain ⟨hadd, hlook⟩ := lookupMethod_AddType ext c T hparse hnew
  have hr := fieldsReturnStmt_of_lookup _ T _ [.Ident "nil"] hlook rfl
  refine ⟨ParseFile_skeletonSource u T hid, by rw [hadd], hlook, ?_, ?_⟩
  · rw [AppendField_nil tbl _ T d call hr hf]
  · rw [AppendField_nil tbl _ T d call hr hf]
    exact lookupMethod_setResults _ T _ _ hlook

/-- Witness of C18: `AddType("Foo")` on a context that only knows `User`, with
the fragment parser, followed by appending `field.String("x")`. -/
theorem C18_addType_then_append_witness :
    isIdentifier asciiUnicode "Foo" = true ∧
    (userContext [.Ident "nil"]).lookupMethod "Foo" "Fields"
      = .error (.methodNotFound "Foo" "Fields") ∧
    ((userContext [.Ident "nil"]).AddType fragmentCollaborators "Foo").2.lookupMethod
        "Foo" "Fields"
      = .ok ⟨"Foo", "Fields", some [.ReturnStmt [.Ident "nil"]]⟩ ∧
    (((userContext [.Ident "nil"]).AddType fragmentCollaborators "Foo").2.AppendField
        asciiTable "Foo" stringX).2.lookupMethod "Foo" "Fields"
      = .ok ⟨"Foo", "Fields",
          some [.ReturnStmt [.CompositeLit entFieldSlice [fieldCall "String" "x"]]]⟩ :=
  have h := C18_addType_then_append asciiTable asciiUnicode fragmentCollaborators
    (userContext [.Ident "nil"]) "Foo" stringX (fieldCall "String" "x")
    (by intro fn src decls hp; simp only [fragmentCollaborators, hp])
    (by decide) (by decide) (by decide)
  ⟨by decide, by decide, h.2.2.1, h.2.2.2.2⟩

end schemast
